/-
Verification of the statistical inference core of the marketing A/B experiment
repository (`decision_pack/src/abpack`): sample-ratio-mismatch detection
(`checks.py`), two-proportion inference (`stats.py`), power / MDE planning
(`power.py`) and stratified lift aggregation (`robustness.py`).

Modelling conventions.
* Python `float` arithmetic is embedded as exact arithmetic in a linear ordered
  field, instantiated at `ℚ` for executable computations and at `ℝ` for
  analytic theorems.  The external numeric collaborators (`math.sqrt` /
  `numpy.sqrt`, `scipy.stats.norm.ppf`, `scipy.stats.norm.cdf`, the chi-square
  survival function) are passed as explicit function parameters; theorems
  assume only properties that the real collaborators satisfy, and concrete
  computations instantiate them with `sqrtA` (a fixed-point square root
  accurate to about `1e-12`) and `ppfQ` (a table of the inverse-normal
  quantiles exercised by the claims, accurate to about `1e-15`).
* Python exceptions are embedded by returning `Except AbError`; each
  constructor of `AbError` corresponds to one `raise` site of the source (the
  mapping is documented at the `AbError` declaration).
* `pandas.DataFrame` columns are embedded as lists; `scipy.stats.chisquare`
  is embedded by its documented computation (sum agreement check, then the
  Pearson statistic), with IEEE division by zero represented explicitly by the
  extended type `ExtQ` (finite / +infinity / NaN).
-/
import Mathlib

set_option maxRecDepth 4000000

attribute [local semireducible] Rat.add Rat.mul Rat.inv Rat.sub Rat.ofScientific

deriving instance DecidableEq for Except

/-- Fuel-driven binary search for the integer square root: maintains
`lo * lo ≤ n < hi * hi` and returns `lo` when the bracket closes. -/
def isqrtAux : ℕ → ℕ → ℕ → ℕ → ℕ
  | 0, lo, _, _ => lo
  | f + 1, lo, hi, n =>
    if hi ≤ lo + 1 then lo
    else
      let m := (lo + hi) / 2
      if m * m ≤ n then isqrtAux f m hi n else isqrtAux f lo m n

/-- Integer square root (floor of the real square root) by binary search;
200 halving steps are ample for every number occurring in this development. -/
def isqrt (n : ℕ) : ℕ := isqrtAux 200 0 (n + 2) n

/-- Model of `math.sqrt` / `numpy.sqrt` on rational inputs: fixed-point square
root with 12 decimal digits after the point (error at most `1e-12`, far below
every tolerance used by the claims; on negative inputs the model returns 0,
a case never exercised because every argument passed to it is nonnegative). -/
def sqrtA (q : ℚ) : ℚ :=
  if q ≤ 0 then 0 else (isqrt ((q.num.toNat * 10 ^ 24) / q.den) : ℚ) / 10 ^ 12

/-- Model of `scipy.stats.norm.ppf` (inverse normal CDF) as a lookup table of
the quantiles exercised by the concrete claims, each value accurate to about
`1e-15`: 0.975 and 0.8 (alpha = 0.05 two-sided, power = 0.8), and 0.55, 0.1,
0.2 (alpha = 0.9 two-sided with powers 0.1 and 0.2, used by a monotonicity
counterexample).  Quantiles outside the table are never exercised. -/
def ppfQ (q : ℚ) : ℚ :=
  if q = 39 / 40 then 1959963984540054 / 10 ^ 15 else
  if q = 4 / 5 then 8416212335729143 / 10 ^ 16 else
  if q = 11 / 20 then 12566134685507402 / 10 ^ 17 else
  if q = 1 / 10 then -12815515655446004 / 10 ^ 16 else
  if q = 1 / 5 then -8416212335729143 / 10 ^ 16 else 0

/-- Exceptions raised by the embedded code.  Each constructor stands for one
`raise` site (or one external-library failure mode) of the source:
* `keyError`       — `expected_split[g]` lookup failure in `srm_check`
                     (Python `KeyError`);
* `chiSumMismatch` — `scipy.stats.chisquare` rejecting observed/expected
                     arrays whose sums disagree (Python `ValueError`);
* `badProb`        — `_check_prob` (power.py, `ValueError`/`TypeError`);
* `badRatePP`      — `_check_rate_pp` (power.py, `ValueError`);
* `badAlphaPower`  — `_check_alpha_power` open-interval checks (power.py);
* `badTreatShare`  — `_check_treat_share` open-interval check (power.py);
* `badTreatmentRate` — `treatment_rate must be in (0, 1)` (power.py);
* `badSampleSize`  — non-positive sample sizes (stats.py and power.py);
* `couldNotBracket` — `RuntimeError("Could not bracket MDE...")` in
                     `mde_pp_for_n_two_proportion`; this is the spec's
                     `ComputationError` kind;
* `nonBinaryOutcome` — `_coerce_binary_outcome` rejecting a non-0/1 value
                     (robustness.py, `ValueError`);
* `badWeighting`   — unknown weighting mode (robustness.py, `ValueError`);
* `noStrataSurvive` — `"No strata had both control and treatment samples
                     meeting min_n_per_arm."` (robustness.py, `ValueError`);
                     this is the spec's `ConfigurationError` kind. -/
inductive AbError where
  | keyError
  | chiSumMismatch
  | badProb
  | badRatePP
  | badAlphaPower
  | badTreatShare
  | badTreatmentRate
  | badSampleSize
  | couldNotBracket
  | nonBinaryOutcome
  | badWeighting
  | noStrataSurvive
  deriving DecidableEq

/-- Extended rational value: the result of an IEEE float computation that can
be finite, positive infinity, or NaN. -/
inductive ExtQ where
  | fin (q : ℚ)
  | infty
  | nanV
  deriving DecidableEq

/-- Addition of extended rationals following IEEE semantics for the values
that occur here (NaN absorbs; +infinity absorbs finite values). -/
def ExtQ.add : ExtQ → ExtQ → ExtQ
  | .nanV, _ => .nanV
  | _, .nanV => .nanV
  | .infty, _ => .infty
  | _, .infty => .infty
  | .fin a, .fin b => .fin (a + b)

/-- Comparison `p >= alpha` for a float p-value following IEEE semantics:
NaN compares false, +infinity compares true. -/
def ExtQ.geQ : ExtQ → ℚ → Bool
  | .nanV, _ => false
  | .infty, _ => true
  | .fin v, a => decide (a ≤ v)

/-- One term `(obs - exp)^2 / exp` of the Pearson chi-square statistic, with
IEEE division by zero: `x / 0 = +inf` for `x > 0` and `0 / 0 = NaN`. -/
def pearsonTerm (o : ℕ) (e : ℚ) : ExtQ :=
  if e = 0 then (if o = 0 then .nanV else .infty) else .fin (((o : ℚ) - e) ^ 2 / e)

/-- Sum of a list of extended rationals, starting from 0 as
`scipy.stats.chisquare` does. -/
def ExtQ.sumL (l : List ExtQ) : ExtQ := l.foldr ExtQ.add (.fin 0)

/-- Model of `scipy.stats.chisquare(f_obs, f_exp)`: first the documented check
that the observed and expected totals agree to relative tolerance `1e-8`
(`ValueError` otherwise), then the Pearson statistic `sum((obs-exp)^2/exp)`.
The p-value is the chi-square survival function of the statistic at
`len(obs) - 1` degrees of freedom: `sf` is its model on finite statistics,
while `sf` at +infinity is 0 and at NaN is NaN for every distribution. -/
def chisquareModel (sf : ℕ → ℚ → ℚ) (obs : List ℕ) (exps : List ℚ) :
    Except AbError (ExtQ × ExtQ) :=
  let so : ℚ := (obs.map (fun n : ℕ => (n : ℚ))).sum
  let se : ℚ := exps.sum
  if |so - se| > 1 / 10 ^ 8 * min so se then .error .chiSumMismatch
  else
    let stat := ExtQ.sumL (List.zipWith pearsonTerm obs exps)
    let p : ExtQ :=
      match stat with
      | .fin v => .fin (sf (obs.length - 1) v)
      | .infty => .fin 0
      | .nanV => .nanV
    .ok (stat, p)

/-- Lexicographic comparison of character lists by code point, modelling
Python's string ordering. -/
def chListLe : List Char → List Char → Bool
  | [], _ => true
  | _ :: _, [] => false
  | c :: cs, d :: ds =>
    if c.toNat < d.toNat then true
    else if d.toNat < c.toNat then false
    else chListLe cs ds

/-- String comparison by code points, modelling Python's `<=` on `str`. -/
def strLe (a b : String) : Bool := chListLe a.data b.data

/-- Insertion step for sorting strings lexicographically. -/
def insertStr (s : String) : List String → List String
  | [] => [s]
  | t :: ts => if strLe s t then s :: t :: ts else t :: insertStr s ts

/-- Sorted copy of a list of strings, modelling Python's `sorted`. -/
def sortStr (l : List String) : List String := l.foldr insertStr []

/-- Result of the SRM check, mirroring the `SRMResult` dataclass of
`checks.py`.  The observed and expected mappings are association lists in the
canonical (sorted) group order. -/
structure SRMResult where
  observed : List (String × ℕ)
  expected : List (String × ℚ)
  chi2 : ExtQ
  p_value : ExtQ
  pass_srm : Bool
  deriving DecidableEq

/-- Look up the expected fraction of every group, in order; a missing group is
the `KeyError` raised by the dict comprehension
`{g: expected_split[g] * total for g in groups}`. -/
def lookupFracs (split : List (String × ℚ)) : List String → Except AbError (List ℚ)
  | [] => .ok []
  | g :: gs =>
    match split.lookup g with
    | none => .error .keyError
    | some f => (lookupFracs split gs).map (f :: ·)

/-- Embedding of `srm_check` (checks.py).  The input `col` is the group-label
column `df[group_col]`; `value_counts` becomes counting occurrences of each
distinct label, group names are sorted, the expected split defaults to a
uniform one, expected counts are `fraction * total`, and the chi-square
goodness-of-fit test is `chisquareModel`.  `sf` models the finite branch of
the chi-square survival function. -/
def srm_check (sf : ℕ → ℚ → ℚ) (col : List String)
    (expected_split : Option (List (String × ℚ))) (alpha : ℚ) :
    Except AbError SRMResult :=
  let groups := sortStr col.dedup
  let total : ℕ := (groups.map (fun g => col.count g)).sum
  let split := expected_split.getD (groups.map (fun g => (g, 1 / (groups.length : ℚ))))
  match lookupFracs split groups with
  | .error e => .error e
  | .ok fracs =>
    let exps := fracs.map (fun f => f * (total : ℚ))
    let obs := groups.map (fun g => col.count g)
    match chisquareModel sf obs exps with
    | .error e => .error e
    | .ok (stat, p) =>
      .ok { observed := groups.map (fun g => (g, col.count g))
            expected := List.zip groups exps
            chi2 := stat
            p_value := p
            pass_srm := p.geQ alpha }

/-- Modelled from the spec: Cramér's V effect size,
`V = sqrt(chi2 / (n * min(r-1, c-1)))`, defined as 0 when `min(r-1,c-1) = 0`.
The computation is absent from `src`'s `checks.py` (only its tests and its
caller `run.py` are present), so it is modelled from the spec's formula;
`sq` models the square root. -/
def cramersV (sq : ℚ → ℚ) (chi2 : ℚ) (n r c : ℕ) : ℚ :=
  if min (r - 1) (c - 1) = 0 then 0
  else sq (chi2 / ((n : ℚ) * (min (r - 1) (c - 1) : ℕ)))

/-- Modelled from the spec: the qualitative label for a Cramér's V value,
with boundary values in the upper bucket and `None` mapped to `"n/a"`.
The function `effect_size_label_cramers_v` is absent from `src`'s `checks.py`
(only its test `test_effect_size_label_boundaries` is present). -/
def effect_size_label_cramers_v : Option ℚ → String
  | none => "n/a"
  | some v =>
    if v < 1 / 10 then "negligible"
    else if v < 3 / 10 then "small"
    else if v < 1 / 2 then "medium"
    else "large"

/-- Record returned by the categorical balance check, per the spec contract
`balance(table_crosstab) -> {statistic, p_value, dof, effect_size}`. -/
structure BalanceResult where
  statistic : ℚ
  p_value : ℚ
  dof : ℕ
  effect_size : ℚ
  deriving DecidableEq

/-- Pearson chi-square statistic of a contingency table (rows of counts):
expected counts are `rowSum * colSum / n`.  Defined for tables with positive
marginal sums, the only ones the balance check meets. -/
def chi2Contingency (t : List (List ℕ)) : ℚ :=
  let colSums : List ℕ := (t.transpose).map List.sum
  let n : ℚ := ((t.map List.sum).sum : ℕ)
  (t.map (fun row =>
    let rs : ℚ := (row.sum : ℕ)
    (List.zipWith (fun o cs =>
      let e : ℚ := rs * (cs : ℕ) / n
      (((o : ℕ) : ℚ) - e) ^ 2 / e) row colSums).sum)).sum

/-- Modelled from the spec: the categorical balance operation, building the
group-by-category contingency table's chi-square statistic, degrees of freedom
`(r-1)*(c-1)`, p-value (via the survival-function model `sf`) and the
Cramér's V effect size.  The effect-size part of `categorical_balance_chi2`
is absent from `src`'s `checks.py` (its caller `run.py` and the tests use it). -/
def categorical_balance (sf : ℕ → ℚ → ℚ) (sq : ℚ → ℚ) (t : List (List ℕ)) :
    BalanceResult :=
  let r := t.length
  let c := (t.headD []).length
  let n : ℕ := (t.map List.sum).sum
  let chi2 := chi2Contingency t
  let dof := (r - 1) * (c - 1)
  { statistic := chi2
    p_value := sf dof chi2
    dof := dof
    effect_size := cramersV sq chi2 n r c }

/-- Result of the two-proportion z-test, mirroring the `TwoPropResult`
dataclass of `stats.py`.  `rel_lift` is a `WithTop` value because the source
sets it to `float("inf")` when the control rate is 0. -/
structure TwoPropResult (α : Type) where
  control_label : String
  treatment_label : String
  n_control : ℕ
  x_control : ℕ
  n_treat : ℕ
  x_treat : ℕ
  control_rate : α
  treatment_rate : α
  abs_lift : α
  rel_lift : WithTop α
  z_stat : α
  p_value : α
  ci_low : α
  ci_high : α
  deriving DecidableEq

/-- Embedding of `two_proportion_ztest_ci` (stats.py): pooled-SE z statistic
(defined as 0 when the pooled standard error is 0), two-sided p-value
`2 * (1 - cdf |z|)`, unpooled-SE confidence interval, and relative lift with
the `p1 = 0` case mapped to +infinity.  `sq`, `ppf`, `cdf` model `math.sqrt`,
`scipy.stats.norm.ppf` and `scipy.stats.norm.cdf`. -/
def two_proportion_ztest_ci {α : Type} [LinearOrderedField α]
    (sq ppf cdf : α → α) (x_control n_control x_treat n_treat : ℕ)
    (control_label treatment_label : String) (alpha : α) :
    Except AbError (TwoPropResult α) :=
  if n_control = 0 ∨ n_treat = 0 then .error .badSampleSize
  else
    let p1 : α := (x_control : α) / (n_control : α)
    let p2 : α := (x_treat : α) / (n_treat : α)
    let diff := p2 - p1
    let pooled : α := ((x_control : α) + (x_treat : α)) / ((n_control : α) + (n_treat : α))
    let se_pooled := sq (pooled * (1 - pooled) * (1 / (n_control : α) + 1 / (n_treat : α)))
    let z := if 0 < se_pooled then diff / se_pooled else 0
    let p_val := 2 * (1 - cdf |z|)
    let se_unpooled := sq (p1 * (1 - p1) / (n_control : α) + p2 * (1 - p2) / (n_treat : α))
    let zcrit := ppf (1 - alpha / 2)
    let rel : WithTop α := if 0 < p1 then ((diff / p1 : α) : WithTop α) else ⊤
    .ok { control_label := control_label
          treatment_label := treatment_label
          n_control := n_control
          x_control := x_control
          n_treat := n_treat
          x_treat := x_treat
          control_rate := p1
          treatment_rate := p2
          abs_lift := diff
          rel_lift := rel
          z_stat := z
          p_value := p_val
          ci_low := diff - zcrit * se_unpooled
          ci_high := diff + zcrit * se_unpooled }

/-- Embedding of `_z_alpha` (power.py): critical z value for the significance
level, splitting alpha across two tails when two-sided. -/
def z_alphaM {α : Type} [LinearOrderedField α] (ppf : α → α) (alpha : α)
    (two_sided : Bool) : α :=
  ppf (1 - (if two_sided then alpha / 2 else alpha))

/-- Embedding of `_z_beta` (power.py): z value at the desired power. -/
def z_betaM {α : Type} (ppf : α → α) (power : α) : α := ppf power

/-- Embedding of `required_sample_size_two_proportion` (power.py): validation
guards in source order, then the normal-approximation sizing formula with
`delta = lift_pp / 100`, allocation ratio `r = treat_share / (1 - treat_share)`,
pooled-rate proxy `pbar`, and ceilings of the continuous solutions.  The NaN
guards of `_check_prob` / `_check_rate_pp` have no counterpart because the
field has no NaN. -/
def required_sample_size_two_proportion {α : Type} [LinearOrderedField α]
    [FloorRing α] (sq ppf : α → α) (baseline_rate lift_pp alpha power : α)
    (two_sided : Bool) (treat_share : α) : Except AbError (ℤ × ℤ) :=
  if baseline_rate < 0 ∨ 1 < baseline_rate then .error .badProb else
  if lift_pp ≤ 0 then .error .badRatePP else
  if alpha < 0 ∨ 1 < alpha then .error .badProb else
  if power < 0 ∨ 1 < power then .error .badProb else
  if alpha ≤ 0 ∨ 1 ≤ alpha then .error .badAlphaPower else
  if power ≤ 0 ∨ 1 ≤ power then .error .badAlphaPower else
  if treat_share < 0 ∨ 1 < treat_share then .error .badProb else
  if treat_share ≤ 0 ∨ 1 ≤ treat_share then .error .badTreatShare else
  let delta := lift_pp / 100
  let p1 := baseline_rate
  let p2 := p1 + delta
  if p2 ≤ 0 ∨ 1 ≤ p2 then .error .badTreatmentRate else
  let control_share := 1 - treat_share
  let r := treat_share / control_share
  let z_a := z_alphaM ppf alpha two_sided
  let z_b := z_betaM ppf power
  let pbar := (p1 + r * p2) / (1 + r)
  let term1 := z_a * sq (pbar * (1 - pbar) * (1 + 1 / r))
  let term2 := z_b * sq (p1 * (1 - p1) + p2 * (1 - p2) / r)
  let n_control := (term1 + term2) ^ 2 / delta ^ 2
  let n_treat := n_control * r
  .ok (⌈n_control⌉, ⌈n_treat⌉)

/-- Continuous (pre-ceiling) control-arm sample size of
`required_sample_size_two_proportion`: the value `n_control` of the source
before `math.ceil`, extracted as a named function so the theorems can speak
about the one formula the code rounds. -/
def nControlCont {α : Type} [LinearOrderedField α] (sq ppf : α → α)
    (baseline_rate lift_pp alpha power : α) (two_sided : Bool)
    (treat_share : α) : α :=
  let delta := lift_pp / 100
  let p1 := baseline_rate
  let p2 := p1 + delta
  let r := treat_share / (1 - treat_share)
  let z_a := z_alphaM ppf alpha two_sided
  let z_b := z_betaM ppf power
  let pbar := (p1 + r * p2) / (1 + r)
  let term1 := z_a * sq (pbar * (1 - pbar) * (1 + 1 / r))
  let term2 := z_b * sq (p1 * (1 - p1) + p2 * (1 - p2) / r)
  (term1 + term2) ^ 2 / delta ^ 2

/-- Total required sample size at a candidate lift: the closure
`required_n_at` of `mde_pp_for_n_two_proportion`, returning
`n_control + n_treatment`. -/
def reqTotalAt {α : Type} [LinearOrderedField α] [FloorRing α]
    (sq ppf : α → α) (baseline_rate alpha power : α) (two_sided : Bool)
    (treat_share : α) (lift_pp : α) : Except AbError ℤ :=
  (required_sample_size_two_proportion sq ppf baseline_rate lift_pp alpha power
      two_sided treat_share).map (fun p => p.1 + p.2)

/-- Embedding of the bracket-growth loop of `mde_pp_for_n_two_proportion`:
up to `fuel` checks of the current upper bracket (source: `range(30)`), each
failed check growing `high` by the factor 1.5 reclamped to `cap`; the
exhausted budget is the source's `RuntimeError("Could not bracket MDE...")`. -/
def mdeBracketLoop {α : Type} [LinearOrderedField α]
    (req : α → Except AbError ℤ) (target : ℤ) (cap : α) :
    ℕ → α → Except AbError α
  | 0, _ => .error .couldNotBracket
  | f + 1, high =>
    match req high with
    | .error e => .error e
    | .ok n =>
      if n ≤ target then .ok high
      else mdeBracketLoop req target cap f (min (high * (3 / 2)) cap)

/-- Embedding of the bisection loop of `mde_pp_for_n_two_proportion`
(source: `range(60)`): raise `low` to the midpoint while the midpoint's
required total exceeds the target, else lower `high`; return `high`. -/
def mdeBisectLoop {α : Type} [LinearOrderedField α]
    (req : α → Except AbError ℤ) (target : ℤ) :
    ℕ → α → α → Except AbError α
  | 0, _, high => .ok high
  | f + 1, low, high =>
    let mid := (low + high) / 2
    match req mid with
    | .error e => .error e
    | .ok n =>
      if target < n then mdeBisectLoop req target f mid high
      else mdeBisectLoop req target f low mid

/-- Embedding of `mde_pp_for_n_two_proportion` (power.py): validation, the
inferred treatment share, the initial bracket `[1e-6, min((1-b)*100 - 1e-6,
50)]`, the growth loop with its 30-check budget, and 60 bisection steps. -/
def mde_pp_for_n_two_proportion {α : Type} [LinearOrderedField α] [FloorRing α]
    (sq ppf : α → α) (baseline_rate : α) (n_control n_treatment : ℤ)
    (alpha power : α) (two_sided : Bool) : Except AbError α :=
  if baseline_rate < 0 ∨ 1 < baseline_rate then .error .badProb else
  if alpha < 0 ∨ 1 < alpha then .error .badProb else
  if power < 0 ∨ 1 < power then .error .badProb else
  if alpha ≤ 0 ∨ 1 ≤ alpha then .error .badAlphaPower else
  if power ≤ 0 ∨ 1 ≤ power then .error .badAlphaPower else
  if n_control ≤ 0 ∨ n_treatment ≤ 0 then .error .badSampleSize else
  let treat_share : α := (n_treatment : α) / ((n_control : α) + (n_treatment : α))
  let low : α := 1 / 1000000
  let cap : α := (1 - baseline_rate) * 100 - 1 / 1000000
  let high : α := min cap 50
  let target : ℤ := n_control + n_treatment
  let req := reqTotalAt sq ppf baseline_rate alpha power two_sided treat_share
  match mdeBracketLoop req target cap 30 high with
  | .error e => .error e
  | .ok h => mdeBisectLoop req target 60 low h

/-- One observation row of the stratified-lift input: the stratification key
(the combination of `strata_cols` values), the group label, and the outcome
value (already numeric; `_coerce_binary_outcome` then demands it be 0/1). -/
structure Obs (K : Type) where
  key : K
  grp : String
  y : ℕ
  deriving DecidableEq

/-- One surviving stratum of `stratified_lift`, mirroring the per-stratum
dict appended to `rows` in robustness.py. -/
structure StratumRow (K : Type) where
  key : K
  n_c : ℕ
  n_t : ℕ
  n_total : ℕ
  p_c : ℚ
  p_t : ℚ
  lift : ℚ
  var : ℚ
  deriving DecidableEq

/-- Result of `stratified_lift`, mirroring the `StratifiedLift` dataclass;
each row of `strata_table` carries its raw weight column. -/
structure StratifiedLiftResult (K : Type) where
  pooled_lift_pp : ℚ
  ci_low_pp : ℚ
  ci_high_pp : ℚ
  strata_table : List (StratumRow K × ℚ)
  deriving DecidableEq

/-- Outcome values of one arm of one stratum:
`g.loc[g[group_col] == label, y_col]`. -/
def armVals {K : Type} [DecidableEq K] (d : List (Obs K)) (k : K)
    (lbl : String) : List ℕ :=
  (d.filter (fun o => o.key == k && o.grp == lbl)).map Obs.y

/-- The surviving strata of `stratified_lift`: one row per distinct key whose
two arms both have at least `min_n` observations (the source loop's
`continue` on small strata is the `none` branch of the `filterMap`). -/
def strataRows {K : Type} [DecidableEq K] (d : List (Obs K))
    (control treatment : String) (min_n : ℕ) : List (StratumRow K) :=
  ((d.map Obs.key).dedup).filterMap (fun k =>
    let yc := armVals d k control
    let yt := armVals d k treatment
    let n_c := yc.length
    let n_t := yt.length
    if n_c < min_n ∨ n_t < min_n then none
    else
      let p_c : ℚ := (yc.sum : ℚ) / (n_c : ℚ)
      let p_t : ℚ := (yt.sum : ℚ) / (n_t : ℚ)
      some { key := k, n_c := n_c, n_t := n_t, n_total := n_c + n_t,
             p_c := p_c, p_t := p_t, lift := p_t - p_c,
             var := p_t * (1 - p_t) / (n_t : ℚ) + p_c * (1 - p_c) / (n_c : ℚ) })

/-- Raw stratum weights for the chosen weighting mode: stratum size for
`"n_total"`, guarded inverse variance for `"inv_var"`, `ValueError`
otherwise. -/
def weightsFor {K : Type} (weighting : String) (tab : List (StratumRow K)) :
    Except AbError (List ℚ) :=
  if weighting = "n_total" then .ok (tab.map (fun r => (r.n_total : ℚ)))
  else if weighting = "inv_var" then
    .ok (tab.map (fun r => 1 / (r.var + 1 / 10 ^ 12)))
  else .error .badWeighting

/-- Insertion step for sorting the output table by descending stratum size. -/
def insertRowDesc {K : Type} (x : StratumRow K × ℚ) :
    List (StratumRow K × ℚ) → List (StratumRow K × ℚ)
  | [] => [x]
  | y :: ys =>
    if y.1.n_total ≤ x.1.n_total then x :: y :: ys else y :: insertRowDesc x ys

/-- Sort of the output table by descending `n_total`
(`tab.sort_values(["n_total"], ascending=False)`). -/
def sortRowsDesc {K : Type} (l : List (StratumRow K × ℚ)) :
    List (StratumRow K × ℚ) :=
  l.foldr insertRowDesc []

/-- Embedding of `stratified_lift` (robustness.py): coerce the outcome to
binary, build per-stratum rows dropping small strata, fail when none survives,
choose weights, normalise them, pool the lift and its variance, and return the
result with the weight-annotated table sorted by descending stratum size.
`sq` models `numpy.sqrt` and `ppf` models `scipy.stats.norm.ppf`. -/
def stratified_lift {K : Type} [DecidableEq K] (sq ppf : ℚ → ℚ)
    (d : List (Obs K)) (control treatment : String) (min_n : ℕ)
    (weighting : String) (alpha : ℚ) : Except AbError (StratifiedLiftResult K) :=
  if ∀ o ∈ d, o.y ≤ 1 then
    let tab := strataRows d control treatment min_n
    if tab = [] then .error .noStrataSurvive
    else
      match weightsFor weighting tab with
      | .error e => .error e
      | .ok w =>
        let wsum := w.sum
        let a := w.map (· / wsum)
        let pooled := (List.zipWith (fun ai r => ai * r.lift) a tab).sum
        let pooled_var := (List.zipWith (fun ai r => ai ^ 2 * r.var) a tab).sum
        let se := sq pooled_var
        let z := ppf (1 - alpha / 2)
        .ok { pooled_lift_pp := pooled
              ci_low_pp := pooled - z * se
              ci_high_pp := pooled + z * se
              strata_table := sortRowsDesc (tab.zip w) }
  else .error .nonBinaryOutcome

theorem insertStr_perm (s : String) (l : List String) :
    (insertStr s l).Perm (s :: l) := by
  induction l with
  | nil => simp [insertStr]
  | cons t ts ih =>
    by_cases h : strLe s t = true
    · simp [insertStr, h]
    · simpa [insertStr, h] using ((ih.cons t).trans (List.Perm.swap s t ts))

theorem sortStr_perm (l : List String) : (sortStr l).Perm l := by
  induction l with
  | nil => simp [sortStr]
  | cons s ss ih => exact (insertStr_perm s (sortStr ss)).trans (ih.cons s)

theorem mem_sortStr (s : String) (l : List String) :
    s ∈ sortStr l ↔ s ∈ l := (sortStr_perm l).mem_iff

theorem count_pos_of_mem_sort_dedup (g : String) (col : List String)
    (h : g ∈ sortStr col.dedup) : col.count g ≠ 0 := by
  rw [mem_sortStr, List.mem_dedup] at h
  exact Nat.pos_iff_ne_zero.mp (List.count_pos_iff.mpr h)

theorem mem_zipWith_cases {α β γ : Type} (f : α → β → γ) :
    ∀ (l1 : List α) (l2 : List β) (c : γ), c ∈ List.zipWith f l1 l2 →
      ∃ a, a ∈ l1 ∧ ∃ b, b ∈ l2 ∧ f a b = c := by
  intro l1
  induction l1 with
  | nil => intro l2 c hc; simp at hc
  | cons x xs ih =>
    intro l2 c hc
    cases l2 with
    | nil => simp at hc
    | cons y ys =>
      rcases List.mem_cons.mp hc with h | h
      · exact ⟨x, List.mem_cons_self x xs, y, List.mem_cons_self y ys, h.symm⟩
      · obtain ⟨a, ha, b, hb, hab⟩ := ih ys c h
        exact ⟨a, List.mem_cons_of_mem x ha, b, List.mem_cons_of_mem y hb, hab⟩

theorem ExtQ.sumL_ne_nan (l : List ExtQ) (h : ExtQ.nanV ∉ l) :
    ExtQ.sumL l ≠ .nanV := by
  induction l with
  | nil => simp [ExtQ.sumL]
  | cons x xs ih =>
    have hx : x ≠ .nanV := fun hx => h (hx ▸ List.mem_cons_self x xs)
    have hxs := ih (fun hm => h (List.mem_cons_of_mem x hm))
    show (ExtQ.add x (ExtQ.sumL xs)) ≠ .nanV
    cases x <;> cases hs : ExtQ.sumL xs <;>
      simp_all [ExtQ.add]

theorem sumL_zip_infty (obs : List ℕ) (exps : List ℚ)
    (hpos : ∀ o ∈ obs, o ≠ 0) (hlen : obs.length = exps.length)
    (hz : (0 : ℚ) ∈ exps) :
    ExtQ.sumL (List.zipWith pearsonTerm obs exps) = .infty := by
  induction obs generalizing exps with
  | nil => cases exps with
    | nil => simp at hz
    | cons e es => simp at hlen
  | cons o os ih =>
    cases exps with
    | nil => simp at hz
    | cons e es =>
      have ho : o ≠ 0 := hpos o (List.mem_cons_self o os)
      have hnonan : ExtQ.nanV ∉ List.zipWith pearsonTerm os es := by
        intro hmem
        obtain ⟨x, hx, y, _, hxy⟩ := mem_zipWith_cases pearsonTerm os es _ hmem
        have hxne : x ≠ 0 := hpos x (List.mem_cons_of_mem o hx)
        by_cases hy0 : y = 0 <;> simp [pearsonTerm, hy0, hxne] at hxy
      rcases List.mem_cons.mp hz with he | hes
      · have hterm : pearsonTerm o e = .infty := by
          simp [pearsonTerm, ← he, ho]
        show ExtQ.add (pearsonTerm o e) (ExtQ.sumL (List.zipWith pearsonTerm os es)) = .infty
        rw [hterm]
        cases hs : ExtQ.sumL (List.zipWith pearsonTerm os es) with
        | nanV => exact absurd hs (ExtQ.sumL_ne_nan _ hnonan)
        | fin q => simp [ExtQ.add]
        | infty => simp [ExtQ.add]
      · have hrec := ih es (fun x hx => hpos x (List.mem_cons_of_mem o hx))
          (by simpa using hlen) hes
        show ExtQ.add (pearsonTerm o e) (ExtQ.sumL (List.zipWith pearsonTerm os es)) = .infty
        rw [hrec]
        by_cases he0 : e = 0 <;> simp [pearsonTerm, he0, ho, ExtQ.add]

theorem lookupFracs_length : ∀ (split : List (String × ℚ)) (gs : List String)
    (fracs : List ℚ), lookupFracs split gs = .ok fracs →
    fracs.length = gs.length := by
  intro split gs
  induction gs with
  | nil => intro fracs h; simp [lookupFracs] at h; simp [← h]
  | cons g gs ih =>
    intro fracs h
    simp only [lookupFracs] at h
    cases hl : split.lookup g with
    | none => rw [hl] at h; simp at h
    | some f =>
      rw [hl] at h
      cases hr : lookupFracs split gs with
      | error e => rw [hr] at h; simp [Except.map] at h
      | ok fs =>
        rw [hr] at h
        simp only [Except.map, Except.ok.injEq] at h
        subst h
        simp [ih fs hr]

/-- The spec (and claim C1) say `srm_check` fails with `ConfigurationError`
whenever some expected count is 0.  The code has no such guard: when a group's
expected fraction is 0 (fractions still summing to the observed total), the
statistic degenerates to +infinity inside `scipy.stats.chisquare` and a full
`SRMResult` is returned (p-value 0, `pass_srm = false`); when a group is
present in the data but absent from `expected_split`, the dict comprehension
raises a `KeyError`, not a `ConfigurationError`.  This theorem proves the
amended claim. -/
theorem C1_srm_zero_expected_amended :
    (∀ (sf : ℕ → ℚ → ℚ) (col : List String) (split : List (String × ℚ))
        (alpha : ℚ) (fracs : List ℚ),
      lookupFracs split (sortStr col.dedup) = .ok fracs →
      (0 : ℚ) ∈ fracs →
      (fracs.map (fun f =>
          f * ((((sortStr col.dedup).map (fun g => col.count g)).sum : ℕ) : ℚ))).sum
        = ((((sortStr col.dedup).map (fun g => col.count g)).sum : ℕ) : ℚ) →
      ∃ r, srm_check sf col (some split) alpha = .ok r ∧
        r.chi2 = .infty ∧ r.p_value = .fin 0 ∧ r.pass_srm = decide (alpha ≤ 0)) ∧
    (∀ (sf : ℕ → ℚ → ℚ) (col : List String) (split : List (String × ℚ))
        (alpha : ℚ),
      lookupFracs split (sortStr col.dedup) = .error .keyError →
      srm_check sf col (some split) alpha = .error .keyError) := by
  constructor
  · intro sf col split alpha fracs hfr hz hsum
    have hstat : ExtQ.sumL (List.zipWith pearsonTerm
        ((sortStr col.dedup).map (fun g => col.count g))
        (fracs.map (fun f =>
          f * ((((sortStr col.dedup).map (fun g => col.count g)).sum : ℕ) : ℚ)))) = .infty := by
      apply sumL_zip_infty
      · intro o ho
        obtain ⟨g, hg, hgo⟩ := List.mem_map.mp ho
        exact hgo ▸ count_pos_of_mem_sort_dedup g col hg
      · simp [lookupFracs_length split _ fracs hfr]
      · exact List.mem_map.mpr ⟨0, hz, by ring⟩
    have hchim : chisquareModel sf
        ((sortStr col.dedup).map (fun g => col.count g))
        (fracs.map (fun f =>
          f * ((((sortStr col.dedup).map (fun g => col.count g)).sum : ℕ) : ℚ)))
        = .ok (.infty, .fin 0) := by
      rw [chisquareModel]
      have hso : ((((sortStr col.dedup).map (fun g => col.count g)).map
          (fun n : ℕ => (n : ℚ))).sum)
          = ((((sortStr col.dedup).map (fun g => col.count g)).sum : ℕ) : ℚ) :=
        (Nat.cast_list_sum _).symm
      rw [if_neg]
      · simp only [hstat]
      · rw [hso, hsum, not_lt, sub_self, abs_zero, min_self]
        positivity
    refine ⟨⟨(sortStr col.dedup).map (fun g => (g, col.count g)),
        List.zip (sortStr col.dedup) (fracs.map (fun f =>
          f * ((((sortStr col.dedup).map (fun g => col.count g)).sum : ℕ) : ℚ))),
        .infty, .fin 0, (ExtQ.fin 0).geQ alpha⟩, ?_, rfl, rfl, rfl⟩
    simp only [srm_check, Option.getD_some]
    rw [hfr]
    dsimp only
    rw [hchim]
  · intro sf col split alpha hfr
    simp only [srm_check, Option.getD_some]
    rw [hfr]

/-- Counterexample to claim C1 as stated: on observed groups `a`, `b` (one
row each) with `expected_split = {a: 1.0, b: 0.0}`, `srm_check` raises
nothing — it returns a complete `SRMResult` whose chi-square statistic is
+infinity and whose p-value is 0, instead of a `ConfigurationError`. -/
theorem C1_srm_zero_expected_counterexample :
    srm_check (fun _ _ => 0) ["a", "b"] (some [("a", 1), ("b", 0)]) (1 / 100)
      = .ok ⟨[("a", 1), ("b", 1)], [("a", 2), ("b", 0)], .infty, .fin 0, false⟩ := by
  decide

theorem C1_srm_zero_expected_witness :
    (∃ r, srm_check (fun _ _ => 0) ["a", "b"] (some [("a", 1), ("b", 0)]) (1 / 100)
        = .ok r ∧ r.chi2 = .infty ∧ r.p_value = .fin 0 ∧
        r.pass_srm = decide ((1 : ℚ) / 100 ≤ 0)) ∧
    srm_check (fun _ _ => 0) ["a", "b"] (some [("a", 1)]) (1 / 100)
      = .error .keyError := by
  constructor
  · exact C1_srm_zero_expected_amended.1 (fun _ _ => 0) ["a", "b"]
      [("a", 1), ("b", 0)] (1 / 100) [1, 0] (by decide) (by decide) (by decide)
  · exact C1_srm_zero_expected_amended.2 (fun _ _ => 0) ["a", "b"]
      [("a", 1)] (1 / 100) (by decide)

theorem required_ok {α : Type} [LinearOrderedField α] [FloorRing α]
    (sq ppf : α → α) (b lift alpha power : α) (two_sided : Bool) (share : α)
    (hb0 : 0 ≤ b) (hb1 : b ≤ 1) (hl : 0 < lift)
    (ha0 : 0 < alpha) (ha1 : alpha < 1) (hp0 : 0 < power) (hp1 : power < 1)
    (hs0 : 0 < share) (hs1 : share < 1)
    (hr0 : 0 < b + lift / 100) (hr1 : b + lift / 100 < 1) :
    required_sample_size_two_proportion sq ppf b lift alpha power two_sided share
      = .ok (⌈nControlCont sq ppf b lift alpha power two_sided share⌉,
             ⌈nControlCont sq ppf b lift alpha power two_sided share
               * (share / (1 - share))⌉) := by
  simp only [required_sample_size_two_proportion]
  rw [if_neg (by push_neg; exact ⟨hb0, hb1⟩)]
  rw [if_neg (not_le.mpr hl)]
  rw [if_neg (by push_neg; exact ⟨ha0.le, ha1.le⟩)]
  rw [if_neg (by push_neg; exact ⟨hp0.le, hp1.le⟩)]
  rw [if_neg (by push_neg; exact ⟨ha0, ha1⟩)]
  rw [if_neg (by push_neg; exact ⟨hp0, hp1⟩)]
  rw [if_neg (by push_neg; exact ⟨hs0.le, hs1.le⟩)]
  rw [if_neg (by push_neg; exact ⟨hs0, hs1⟩)]
  rw [if_neg (by push_neg; exact ⟨hr0, hr1⟩)]
  rfl

/-- Claim C3: on every valid input, `required_sample_size_two_proportion`
returns exactly the pair `(ceil((term1+term2)^2/delta^2),
ceil(r * n_control_continuous))` with `delta = lift_pp/100`,
`r = treat_share/(1-treat_share)`, `term1 = z_alpha *
sqrt(pbar(1-pbar)(1+1/r))` and `term2 = z_beta * sqrt(p1(1-p1) +
p2(1-p2)/r)`, where the second ceiling is applied to the scaled unrounded
continuous control size. -/
theorem C3_required_sample_size_formula {α : Type} [LinearOrderedField α]
    [FloorRing α] (sq ppf : α → α) (b lift alpha power : α) (two_sided : Bool)
    (share : α)
    (hb0 : 0 ≤ b) (hb1 : b ≤ 1) (hl : 0 < lift)
    (ha0 : 0 < alpha) (ha1 : alpha < 1) (hp0 : 0 < power) (hp1 : power < 1)
    (hs0 : 0 < share) (hs1 : share < 1)
    (hr0 : 0 < b + lift / 100) (hr1 : b + lift / 100 < 1) :
    required_sample_size_two_proportion sq ppf b lift alpha power two_sided share
      = .ok
        (⌈(ppf (1 - (if two_sided then alpha / 2 else alpha)) *
              sq ((b + share / (1 - share) * (b + lift / 100)) / (1 + share / (1 - share)) *
                (1 - (b + share / (1 - share) * (b + lift / 100)) / (1 + share / (1 - share))) *
                (1 + 1 / (share / (1 - share)))) +
            ppf power *
              sq (b * (1 - b) +
                (b + lift / 100) * (1 - (b + lift / 100)) / (share / (1 - share)))) ^ 2
            / (lift / 100) ^ 2⌉,
         ⌈share / (1 - share) *
            ((ppf (1 - (if two_sided then alpha / 2 else alpha)) *
              sq ((b + share / (1 - share) * (b + lift / 100)) / (1 + share / (1 - share)) *
                (1 - (b + share / (1 - share) * (b + lift / 100)) / (1 + share / (1 - share))) *
                (1 + 1 / (share / (1 - share)))) +
            ppf power *
              sq (b * (1 - b) +
                (b + lift / 100) * (1 - (b + lift / 100)) / (share / (1 - share)))) ^ 2
            / (lift / 100) ^ 2)⌉) := by
  rw [required_ok sq ppf b lift alpha power two_sided share hb0 hb1 hl ha0 ha1
    hp0 hp1 hs0 hs1 hr0 hr1]
  refine congrArg Except.ok (Prod.ext ?_ ?_)
  · exact congrArg Int.ceil (by simp only [nControlCont, z_alphaM, z_betaM])
  · exact congrArg Int.ceil
      (by simp only [nControlCont, z_alphaM, z_betaM]; ring)

theorem C3_required_sample_size_formula_witness :
    ∃ p, required_sample_size_two_proportion (fun q : ℚ => q) (fun q : ℚ => q)
      (1 / 2) 10 (1 / 20) (4 / 5) true (1 / 2) = .ok p :=
  ⟨_, C3_required_sample_size_formula (fun q : ℚ => q) (fun q : ℚ => q)
    (1 / 2) 10 (1 / 20) (4 / 5) true (1 / 2) (by norm_num) (by norm_num)
    (by norm_num) (by norm_num) (by norm_num) (by norm_num) (by norm_num)
    (by norm_num) (by norm_num) (by norm_num) (by norm_num)⟩

/-- Claim C4: the categorical balance record carries an `effect_size` field
equal to Cramér's V `sqrt(chi2 / (n * min(r-1, c-1)))` of the contingency
table (0 in the degenerate `min(r-1,c-1) = 0` case), and the qualitative
label maps 0 to "negligible", 0.10 to "small", 0.30 to "medium", 0.50 to
"large" and a missing value to "n/a". -/
theorem C4_cramers_v_effect_size_and_labels :
    (∀ (sf : ℕ → ℚ → ℚ) (sq : ℚ → ℚ) (t : List (List ℕ)),
      (categorical_balance sf sq t).effect_size
        = cramersV sq (chi2Contingency t) ((t.map List.sum).sum)
            t.length (t.headD []).length) ∧
    (∀ (sq : ℚ → ℚ) (chi2 : ℚ) (n r c : ℕ), min (r - 1) (c - 1) ≠ 0 →
      cramersV sq chi2 n r c = sq (chi2 / ((n : ℚ) * (min (r - 1) (c - 1) : ℕ)))) ∧
    (∀ (sq : ℚ → ℚ) (chi2 : ℚ) (n r c : ℕ), min (r - 1) (c - 1) = 0 →
      cramersV sq chi2 n r c = 0) ∧
    effect_size_label_cramers_v none = "n/a" ∧
    effect_size_label_cramers_v (some 0) = "negligible" ∧
    effect_size_label_cramers_v (some (1 / 10)) = "small" ∧
    effect_size_label_cramers_v (some (3 / 10)) = "medium" ∧
    effect_size_label_cramers_v (some (1 / 2)) = "large" := by
  refine ⟨fun sf sq t => rfl, fun sq chi2 n r c h => if_neg h,
    fun sq chi2 n r c h => if_pos h, rfl, ?_, ?_, ?_, ?_⟩ <;> decide

theorem C4_cramers_v_effect_size_and_labels_witness :
    cramersV (fun q : ℚ => q) 5 7 1 3 = 0 ∧
    cramersV (fun q : ℚ => q) 5 8 3 3 = (fun q : ℚ => q) (5 / ((8 : ℚ) * (2 : ℕ))) := by
  constructor
  · exact C4_cramers_v_effect_size_and_labels.2.2.1 (fun q => q) 5 7 1 3 (by decide)
  · exact C4_cramers_v_effect_size_and_labels.2.1 (fun q => q) 5 8 3 3 (by decide)

/-- Claim C5: for positive sample sizes the two-proportion z-test never
fails on degenerate numerics: a complete result is always returned; when all
outcomes are 0 or all are 1 across both arms (pooled standard error 0) the
z statistic is exactly 0 and the two-sided p-value is exactly 1; and when the
control rate is 0 the relative lift is exactly +infinity.  `sq 0 = 0` and
`cdf 0 = 1/2` are facts of the modelled `math.sqrt` and normal CDF. -/
theorem C5_degenerate_cases_defined {α : Type} [LinearOrderedField α]
    (sq ppf cdf : α → α) (x_control n_control x_treat n_treat : ℕ)
    (cl tl : String) (alpha : α)
    (hnc : n_control ≠ 0) (hnt : n_treat ≠ 0)
    (hsq0 : sq 0 = 0) (hcdf0 : cdf 0 = 1 / 2) :
    (∃ res, two_proportion_ztest_ci sq ppf cdf x_control n_control x_treat
        n_treat cl tl alpha = .ok res) ∧
    (x_control + x_treat = 0 ∨ x_control + x_treat = n_control + n_treat →
      ∀ res, two_proportion_ztest_ci sq ppf cdf x_control n_control x_treat
          n_treat cl tl alpha = .ok res →
        res.z_stat = 0 ∧ res.p_value = 1) ∧
    (x_control = 0 →
      ∀ res, two_proportion_ztest_ci sq ppf cdf x_control n_control x_treat
          n_treat cl tl alpha = .ok res →
        res.rel_lift = ⊤) := by
  have hne : ¬(n_control = 0 ∨ n_treat = 0) := by push_neg; exact ⟨hnc, hnt⟩
  have hncp : (0 : α) < (n_control : α) :=
    Nat.cast_pos.mpr (Nat.pos_of_ne_zero hnc)
  have hntp : (0 : α) < (n_treat : α) :=
    Nat.cast_pos.mpr (Nat.pos_of_ne_zero hnt)
  simp only [two_proportion_ztest_ci, if_neg hne]
  refine ⟨⟨_, rfl⟩, ?_, ?_⟩
  · intro hdeg res hres
    have hres' := Except.ok.inj hres
    subst hres'
    have harg : ((x_control : α) + (x_treat : α)) / ((n_control : α) + (n_treat : α))
        * (1 - ((x_control : α) + (x_treat : α)) / ((n_control : α) + (n_treat : α)))
        * (1 / (n_control : α) + 1 / (n_treat : α)) = 0 := by
      rcases hdeg with h0 | h1
      · have hx : x_control = 0 ∧ x_treat = 0 := by omega
        rw [hx.1, hx.2]
        simp
      · have hcast : ((x_control : α) + (x_treat : α))
            = ((n_control : α) + (n_treat : α)) := by
          have := congrArg (fun n : ℕ => (n : α)) h1
          push_cast at this
          exact this
        rw [hcast, div_self (by positivity)]
        ring
    constructor
    · show (if 0 < sq (_ * _ * _) then _ else 0) = 0
      rw [harg, hsq0, if_neg (lt_irrefl 0)]
    · show 2 * (1 - cdf |if 0 < sq (_ * _ * _) then _ else 0|) = 1
      rw [harg, hsq0, if_neg (lt_irrefl 0), abs_zero, hcdf0]
      ring
  · intro hx0 res hres
    have hres' := Except.ok.inj hres
    subst hres'
    show (if 0 < (x_control : α) / (n_control : α) then _ else ⊤) = ⊤
    rw [hx0]
    simp

theorem C5_degenerate_cases_defined_witness :
    ∃ res, two_proportion_ztest_ci (fun _ : ℚ => 0) (fun q : ℚ => q)
        (fun _ : ℚ => 1 / 2) 0 3 0 4 "psa" "ad" (1 / 20) = .ok res ∧
      res.z_stat = 0 ∧ res.p_value = 1 ∧ res.rel_lift = ⊤ := by
  have h := C5_degenerate_cases_defined (fun _ : ℚ => 0) (fun q : ℚ => q)
    (fun _ : ℚ => 1 / 2) 0 3 0 4 "psa" "ad" (1 / 20)
    (by norm_num) (by norm_num) rfl rfl
  obtain ⟨res, hres⟩ := h.1
  obtain ⟨hz, hp⟩ := h.2.1 (Or.inl rfl) res hres
  exact ⟨res, hres, hz, hp, h.2.2 rfl res hres⟩

/-- Claim C6: the two-sided confidence interval returned by
`two_proportion_ztest_ci` always contains the point estimate `abs_lift`,
because the interval is `abs_lift ± zcrit * SE_unpooled` with `zcrit =
ppf(1 - alpha/2) ≥ 0` (a fact of the inverse normal CDF above the median)
and `SE_unpooled = sqrt(...) ≥ 0`. -/
theorem C6_ci_contains_point_estimate {α : Type} [LinearOrderedField α]
    (sq ppf cdf : α → α) (x_control n_control x_treat n_treat : ℕ)
    (cl tl : String) (alpha : α)
    (hnc : n_control ≠ 0) (hnt : n_treat ≠ 0)
    (hxc : x_control ≤ n_control) (hxt : x_treat ≤ n_treat)
    (ha0 : 0 < alpha) (ha1 : alpha < 1)
    (hsq : ∀ q : α, 0 ≤ q → 0 ≤ sq q)
    (hppf : ∀ q : α, 1 / 2 ≤ q → 0 ≤ ppf q) :
    ∀ res, two_proportion_ztest_ci sq ppf cdf x_control n_control x_treat
        n_treat cl tl alpha = .ok res →
      res.ci_low ≤ res.abs_lift ∧ res.abs_lift ≤ res.ci_high := by
  have hne : ¬(n_control = 0 ∨ n_treat = 0) := by push_neg; exact ⟨hnc, hnt⟩
  have hncp : (0 : α) < (n_control : α) :=
    Nat.cast_pos.mpr (Nat.pos_of_ne_zero hnc)
  have hntp : (0 : α) < (n_treat : α) :=
    Nat.cast_pos.mpr (Nat.pos_of_ne_zero hnt)
  simp only [two_proportion_ztest_ci, if_neg hne]
  intro res hres
  have hres' := Except.ok.inj hres
  subst hres'
  have hp1a : (0 : α) ≤ (x_control : α) / (n_control : α) := by positivity
  have hp1b : (x_control : α) / (n_control : α) ≤ 1 :=
    (div_le_one hncp).mpr (Nat.cast_le.mpr hxc)
  have hp2a : (0 : α) ≤ (x_treat : α) / (n_treat : α) := by positivity
  have hp2b : (x_treat : α) / (n_treat : α) ≤ 1 :=
    (div_le_one hntp).mpr (Nat.cast_le.mpr hxt)
  have harg : (0 : α) ≤
      (x_control : α) / (n_control : α) * (1 - (x_control : α) / (n_control : α))
        / (n_control : α)
      + (x_treat : α) / (n_treat : α) * (1 - (x_treat : α) / (n_treat : α))
        / (n_treat : α) := by
    have h1 : (0 : α) ≤ (x_control : α) / (n_control : α)
        * (1 - (x_control : α) / (n_control : α)) :=
      mul_nonneg hp1a (by linarith)
    have h2 : (0 : α) ≤ (x_treat : α) / (n_treat : α)
        * (1 - (x_treat : α) / (n_treat : α)) :=
      mul_nonneg hp2a (by linarith)
    have := div_nonneg h1 hncp.le
    have := div_nonneg h2 hntp.le
    linarith
  have hterm : (0 : α) ≤ ppf (1 - alpha / 2) * sq
      ((x_control : α) / (n_control : α) * (1 - (x_control : α) / (n_control : α))
        / (n_control : α)
      + (x_treat : α) / (n_treat : α) * (1 - (x_treat : α) / (n_treat : α))
        / (n_treat : α)) :=
    mul_nonneg (hppf _ (by linarith)) (hsq _ harg)
  constructor
  · show _ - _ ≤ _
    linarith
  · show _ ≤ _ + _
    linarith

theorem C6_ci_contains_point_estimate_witness :
    ∃ res, two_proportion_ztest_ci (fun q : ℚ => q) (fun q : ℚ => q)
        (fun q : ℚ => q) 3 10 5 12 "psa" "ad" (1 / 20) = .ok res ∧
      res.ci_low ≤ res.abs_lift ∧ res.abs_lift ≤ res.ci_high := by
  rcases h : two_proportion_ztest_ci (fun q : ℚ => q) (fun q : ℚ => q)
      (fun q : ℚ => q) 3 10 5 12 "psa" "ad" (1 / 20) with e | res
  · have hok : (two_proportion_ztest_ci (fun q : ℚ => q) (fun q : ℚ => q)
        (fun q : ℚ => q) 3 10 5 12 "psa" "ad" (1 / 20)).isOk = true := by decide
    rw [h] at hok
    simp [Except.isOk, Except.toBool] at hok
  · exact ⟨res, rfl, C6_ci_contains_point_estimate (fun q : ℚ => q)
      (fun q : ℚ => q) (fun q : ℚ => q) 3 10 5 12 "psa" "ad" (1 / 20)
      (by norm_num) (by norm_num) (by norm_num) (by norm_num) (by norm_num)
      (by norm_num) (fun q hq => hq) (fun q hq => by linarith) res h⟩

theorem insertRowDesc_perm {K : Type} (x : StratumRow K × ℚ)
    (l : List (StratumRow K × ℚ)) : (insertRowDesc x l).Perm (x :: l) := by
  induction l with
  | nil => simp [insertRowDesc]
  | cons y ys ih =>
    by_cases h : y.1.n_total ≤ x.1.n_total
    · simp [insertRowDesc, h]
    · simpa [insertRowDesc, h] using ((ih.cons y).trans (List.Perm.swap x y ys))

theorem sortRowsDesc_perm {K : Type} (l : List (StratumRow K × ℚ)) :
    (sortRowsDesc l).Perm l := by
  induction l with
  | nil => simp [sortRowsDesc]
  | cons x xs ih => exact (insertRowDesc_perm x (sortRowsDesc xs)).trans (ih.cons x)

theorem sum_map_div (l : List ℚ) (c : ℚ) :
    (l.map (fun x => x / c)).sum = l.sum / c := by
  induction l with
  | nil => simp
  | cons x xs ih => simp [ih, add_div]

theorem sum_le_length : ∀ (l : List ℕ), (∀ x ∈ l, x ≤ 1) → l.sum ≤ l.length := by
  intro l
  induction l with
  | nil => simp
  | cons x xs ih =>
    intro h
    have hx := h x (List.mem_cons_self x xs)
    have := ih (fun y hy => h y (List.mem_cons_of_mem x hy))
    simp only [List.sum_cons, List.length_cons]
    omega

theorem wsum_le_max : ∀ (l : List (ℚ × ℚ)), (∀ p ∈ l, 0 ≤ p.1) → l ≠ [] →
    ∃ p ∈ l, (l.map (fun q => q.1 * q.2)).sum ≤ (l.map Prod.fst).sum * p.2 := by
  intro l
  induction l with
  | nil => intro _ h; exact absurd rfl h
  | cons x xs ih =>
    intro hnn _
    have hx : 0 ≤ x.1 := hnn x (List.mem_cons_self x xs)
    cases xs with
    | nil =>
      refine ⟨x, List.mem_cons_self x [], ?_⟩
      simp
    | cons y ys =>
      obtain ⟨p, hp, hle⟩ := ih (fun q hq => hnn q (List.mem_cons_of_mem x hq))
        (by simp)
      have hwnn : 0 ≤ ((y :: ys).map Prod.fst).sum :=
        List.sum_nonneg (by
          intro a ha
          obtain ⟨q, hq, rfl⟩ := List.mem_map.mp ha
          exact hnn q (List.mem_cons_of_mem x hq))
      rcases le_total x.2 p.2 with hc | hc
      · refine ⟨p, List.mem_cons_of_mem x hp, ?_⟩
        have hxc : x.1 * x.2 ≤ x.1 * p.2 := mul_le_mul_of_nonneg_left hc hx
        simp only [List.map_cons, List.sum_cons] at hle hwnn ⊢
        nlinarith [hle, hxc]
      · refine ⟨x, List.mem_cons_self x _, ?_⟩
        have h2 : ((y :: ys).map Prod.fst).sum * p.2
            ≤ ((y :: ys).map Prod.fst).sum * x.2 :=
          mul_le_mul_of_nonneg_left hc hwnn
        simp only [List.map_cons, List.sum_cons] at hle hwnn h2 ⊢
        nlinarith [hle, h2]

theorem wsum_ge_min : ∀ (l : List (ℚ × ℚ)), (∀ p ∈ l, 0 ≤ p.1) → l ≠ [] →
    ∃ p ∈ l, (l.map Prod.fst).sum * p.2 ≤ (l.map (fun q => q.1 * q.2)).sum := by
  intro l
  induction l with
  | nil => intro _ h; exact absurd rfl h
  | cons x xs ih =>
    intro hnn _
    have hx : 0 ≤ x.1 := hnn x (List.mem_cons_self x xs)
    cases xs with
    | nil =>
      refine ⟨x, List.mem_cons_self x [], ?_⟩
      simp
    | cons y ys =>
      obtain ⟨p, hp, hle⟩ := ih (fun q hq => hnn q (List.mem_cons_of_mem x hq))
        (by simp)
      have hwnn : 0 ≤ ((y :: ys).map Prod.fst).sum :=
        List.sum_nonneg (by
          intro a ha
          obtain ⟨q, hq, rfl⟩ := List.mem_map.mp ha
          exact hnn q (List.mem_cons_of_mem x hq))
      rcases le_total x.2 p.2 with hc | hc
      · refine ⟨x, List.mem_cons_self x _, ?_⟩
        have h2 : ((y :: ys).map Prod.fst).sum * x.2
            ≤ ((y :: ys).map Prod.fst).sum * p.2 :=
          mul_le_mul_of_nonneg_left hc hwnn
        simp only [List.map_cons, List.sum_cons] at hle hwnn h2 ⊢
        nlinarith [hle, h2]
      · refine ⟨p, List.mem_cons_of_mem x hp, ?_⟩
        have hxc : x.1 * p.2 ≤ x.1 * x.2 := mul_le_mul_of_nonneg_left hc hx
        simp only [List.map_cons, List.sum_cons] at hle hwnn ⊢
        nlinarith [hle, hxc]

theorem zipWith_map_self {T β γ : Type} (F : β → T → γ) (g : T → β) :
    ∀ (l : List T), List.zipWith F (l.map g) l = l.map (fun r => F (g r) r) := by
  intro l
  induction l with
  | nil => rfl
  | cons x xs ih => simp [ih]

theorem zip_map_mem {T : Type} (f : T → ℚ) :
    ∀ (l : List T) (p : T × ℚ), p ∈ l.zip (l.map f) → ∃ r ∈ l, p = (r, f r) := by
  intro l
  induction l with
  | nil => intro p hp; simp at hp
  | cons x xs ih =>
    intro p hp
    simp only [List.map_cons, List.zip_cons_cons, List.mem_cons] at hp
    rcases hp with h | h
    · exact ⟨x, List.mem_cons_self x xs, h⟩
    · obtain ⟨r, hr, rfl⟩ := ih p h
      exact ⟨r, List.mem_cons_of_mem x hr, rfl⟩

theorem mem_zip_map {T : Type} (f : T → ℚ) :
    ∀ (l : List T) (r : T), r ∈ l → (r, f r) ∈ l.zip (l.map f) := by
  intro l
  induction l with
  | nil => intro r hr; simp at hr
  | cons x xs ih =>
    intro r hr
    rcases List.mem_cons.mp hr with h | h
    · subst h; simp
    · simp only [List.map_cons, List.zip_cons_cons, List.mem_cons]
      exact Or.inr (ih r h)

theorem weightsFor_error {K : Type} (weighting : String)
    (tab : List (StratumRow K)) (e : AbError)
    (h : weightsFor weighting tab = .error e) : e = .badWeighting := by
  unfold weightsFor at h
  split_ifs at h <;> simp_all

theorem weightsFor_shape {K : Type} (weighting : String)
    (tab : List (StratumRow K)) (w : List ℚ)
    (h : weightsFor weighting tab = .ok w) :
    (weighting = "n_total" ∧ w = tab.map (fun r => (r.n_total : ℚ))) ∨
    (weighting = "inv_var" ∧ w = tab.map (fun r => 1 / (r.var + 1 / 10 ^ 12))) := by
  unfold weightsFor at h
  split_ifs at h with h1 h2
  · exact Or.inl ⟨h1, (Except.ok.inj h).symm⟩
  · exact Or.inr ⟨h2, (Except.ok.inj h).symm⟩

theorem strataRows_row_mem {K : Type} [DecidableEq K] (d : List (Obs K))
    (control treatment : String) (min_n : ℕ) (r : StratumRow K)
    (hr : r ∈ strataRows d control treatment min_n) :
    ∃ k, k ∈ (d.map Obs.key).dedup ∧ r.key = k ∧
      min_n ≤ (armVals d k control).length ∧
      min_n ≤ (armVals d k treatment).length ∧
      r.n_c = (armVals d k control).length ∧
      r.n_t = (armVals d k treatment).length ∧
      r.n_total = r.n_c + r.n_t ∧
      r.p_c = ((armVals d k control).sum : ℚ) / (r.n_c : ℚ) ∧
      r.p_t = ((armVals d k treatment).sum : ℚ) / (r.n_t : ℚ) ∧
      r.var = r.p_t * (1 - r.p_t) / (r.n_t : ℚ)
        + r.p_c * (1 - r.p_c) / (r.n_c : ℚ) := by
  obtain ⟨k, hk, hFk⟩ := List.mem_filterMap.mp hr
  by_cases hc : (armVals d k control).length < min_n
      ∨ (armVals d k treatment).length < min_n
  · rw [if_pos hc] at hFk; simp at hFk
  · rw [if_neg hc] at hFk
    have hrec := Option.some.inj hFk
    push_neg at hc
    subst hrec
    exact ⟨k, hk, rfl, not_lt.mp (by exact fun h => absurd h (not_lt.mpr hc.1)),
      not_lt.mp (by exact fun h => absurd h (not_lt.mpr hc.2)), rfl, rfl, rfl,
      rfl, rfl, rfl⟩

theorem armVals_le_one {K : Type} [DecidableEq K] (d : List (Obs K)) (k : K)
    (lbl : String) (hbin : ∀ o ∈ d, o.y ≤ 1) :
    ∀ x ∈ armVals d k lbl, x ≤ 1 := by
  intro x hx
  obtain ⟨o, ho, rfl⟩ := List.mem_map.mp hx
  exact hbin o (List.mem_filter.mp ho).1

theorem strataRows_p_bounds {K : Type} [DecidableEq K] (d : List (Obs K))
    (k : K) (lbl : String) (hbin : ∀ o ∈ d, o.y ≤ 1) :
    0 ≤ ((armVals d k lbl).sum : ℚ) / ((armVals d k lbl).length : ℚ) ∧
    ((armVals d k lbl).sum : ℚ) / ((armVals d k lbl).length : ℚ) ≤ 1 := by
  constructor
  · positivity
  · rcases Nat.eq_zero_or_pos (armVals d k lbl).length with h0 | hpos
    · rw [h0]
      norm_num
    · refine (div_le_one (by exact_mod_cast hpos)).mpr ?_
      exact_mod_cast sum_le_length _ (armVals_le_one d k lbl hbin)

theorem strataRows_var_nonneg {K : Type} [DecidableEq K] (d : List (Obs K))
    (control treatment : String) (min_n : ℕ) (r : StratumRow K)
    (hbin : ∀ o ∈ d, o.y ≤ 1)
    (hr : r ∈ strataRows d control treatment min_n) : 0 ≤ r.var := by
  obtain ⟨k, _, _, _, _, hnc, hnt, _, hpc, hpt, hvar⟩ :=
    strataRows_row_mem d control treatment min_n r hr
  have hc := strataRows_p_bounds d k control hbin
  have ht := strataRows_p_bounds d k treatment hbin
  rw [hvar, hpc, hpt, hnc, hnt]
  have h1 : 0 ≤ ((armVals d k treatment).sum : ℚ)
      / ((armVals d k treatment).length : ℚ)
      * (1 - ((armVals d k treatment).sum : ℚ)
        / ((armVals d k treatment).length : ℚ)) :=
    mul_nonneg ht.1 (by linarith [ht.2])
  have h2 : 0 ≤ ((armVals d k control).sum : ℚ)
      / ((armVals d k control).length : ℚ)
      * (1 - ((armVals d k control).sum : ℚ)
        / ((armVals d k control).length : ℚ)) :=
    mul_nonneg hc.1 (by linarith [hc.2])
  have := div_nonneg h1 (by positivity :
    (0:ℚ) ≤ ((armVals d k treatment).length : ℚ))
  have := div_nonneg h2 (by positivity :
    (0:ℚ) ≤ ((armVals d k control).length : ℚ))
  linarith

theorem stratified_ok_extract {K : Type} [DecidableEq K] (sq ppf : ℚ → ℚ)
    (d : List (Obs K)) (control treatment : String) (min_n : ℕ)
    (weighting : String) (alpha : ℚ) (res : StratifiedLiftResult K)
    (h : stratified_lift sq ppf d control treatment min_n weighting alpha
      = .ok res) :
    (∀ o ∈ d, o.y ≤ 1) ∧
    strataRows d control treatment min_n ≠ [] ∧
    ∃ w, weightsFor weighting (strataRows d control treatment min_n) = .ok w ∧
      res.strata_table
        = sortRowsDesc ((strataRows d control treatment min_n).zip w) ∧
      res.pooled_lift_pp
        = (List.zipWith (fun ai r => ai * r.lift) (w.map (fun x => x / w.sum))
            (strataRows d control treatment min_n)).sum := by
  by_cases hbin : ∀ o ∈ d, o.y ≤ 1
  · refine ⟨hbin, ?_⟩
    rw [stratified_lift, if_pos hbin] at h
    by_cases hemp : strataRows d control treatment min_n = []
    · rw [if_pos hemp] at h; simp at h
    · rw [if_neg hemp] at h
      refine ⟨hemp, ?_⟩
      cases hw : weightsFor weighting (strataRows d control treatment min_n) with
      | error e => rw [hw] at h; simp at h
      | ok w =>
        rw [hw] at h
        dsimp only at h
        have := Except.ok.inj h
        subst this
        exact ⟨w, rfl, rfl, rfl⟩
  · rw [stratified_lift, if_neg hbin] at h
    simp at h

/-- Claim C9: `stratified_lift` excludes exactly the strata in which some arm
has fewer than `min_n_per_arm` observations — a stratum key yields a row iff
it occurs in the data and both its arm counts reach the threshold, and the
returned table consists exactly of the surviving rows — and it fails with the
`ValueError` `"No strata had both control and treatment samples meeting
min_n_per_arm."` (the spec's `ConfigurationError`) iff no stratum survives. -/
theorem C9_stratified_exclusion_and_error {K : Type} [DecidableEq K]
    (sq ppf : ℚ → ℚ) (d : List (Obs K)) (control treatment : String)
    (min_n : ℕ) (weighting : String) (alpha : ℚ)
    (hbin : ∀ o ∈ d, o.y ≤ 1) :
    (stratified_lift sq ppf d control treatment min_n weighting alpha
        = .error .noStrataSurvive
      ↔ strataRows d control treatment min_n = []) ∧
    (∀ k, (∃ r ∈ strataRows d control treatment min_n, r.key = k) ↔
      (k ∈ (d.map Obs.key).dedup ∧ min_n ≤ (armVals d k control).length ∧
        min_n ≤ (armVals d k treatment).length)) ∧
    (∀ res, stratified_lift sq ppf d control treatment min_n weighting alpha
        = .ok res →
      (res.strata_table.map Prod.fst).Perm
        (strataRows d control treatment min_n)) := by
  refine ⟨?_, ?_, ?_⟩
  · rw [stratified_lift, if_pos hbin]
    by_cases hemp : strataRows d control treatment min_n = []
    · rw [if_pos hemp]
      simp [hemp]
    · rw [if_neg hemp]
      cases hw : weightsFor weighting (strataRows d control treatment min_n) with
      | error e =>
        have := weightsFor_error _ _ _ hw
        subst this
        simp [hemp]
      | ok w => simp [hemp]
  · intro k
    constructor
    · rintro ⟨r, hr, rfl⟩
      obtain ⟨k', hk', hkey, hc, ht, _⟩ :=
        strataRows_row_mem d control treatment min_n r hr
      rw [hkey]
      exact ⟨hk', hc, ht⟩
    · rintro ⟨hk, hc, ht⟩
      have hneg : ¬((armVals d k control).length < min_n
          ∨ (armVals d k treatment).length < min_n) := by
        push_neg
        exact ⟨hc, ht⟩
      exact ⟨_, List.mem_filterMap.mpr ⟨k, hk, if_neg hneg⟩, rfl⟩
  · intro res hres
    obtain ⟨_, hemp, w, hw, htab, _⟩ :=
      stratified_ok_extract sq ppf d control treatment min_n weighting alpha
        res hres
    have hlen : (strataRows d control treatment min_n).length = w.length := by
      rcases weightsFor_shape weighting _ w hw with ⟨_, rfl⟩ | ⟨_, rfl⟩ <;>
        simp
    rw [htab]
    have hperm := (sortRowsDesc_perm
      ((strataRows d control treatment min_n).zip w)).map Prod.fst
    refine hperm.trans ?_
    rw [List.map_fst_zip _ _ (le_of_eq hlen)]

theorem C9_stratified_exclusion_and_error_witness :
    stratified_lift (fun q : ℚ => q) (fun q : ℚ => q)
      [⟨0, "psa", 0⟩, ⟨0, "ad", 1⟩, ⟨(1 : ℕ), "psa", 0⟩] "psa" "ad" 2
      "n_total" (1 / 20) = .error .noStrataSurvive ∧
    (∃ r ∈ strataRows [⟨0, "psa", 0⟩, ⟨0, "ad", 1⟩, ⟨(1 : ℕ), "psa", 0⟩]
      "psa" "ad" 1, r.key = 0) := by
  constructor
  · exact (C9_stratified_exclusion_and_error (fun q => q) (fun q => q)
      [⟨0, "psa", 0⟩, ⟨0, "ad", 1⟩, ⟨(1 : ℕ), "psa", 0⟩] "psa" "ad" 2
      "n_total" (1 / 20) (by decide)).1.mpr (by decide)
  · exact ((C9_stratified_exclusion_and_error (fun q => q) (fun q => q)
      [⟨0, "psa", 0⟩, ⟨0, "ad", 1⟩, ⟨(1 : ℕ), "psa", 0⟩] "psa" "ad" 1
      "n_total" (1 / 20) (by decide)).2.1 0).mpr ⟨by decide, by decide, by decide⟩

/-- Claim C10 (implicit): on every successful `stratified_lift` call with
`min_n_per_arm ≥ 1`, the weights are strictly positive and normalise to sum 1,
so the pooled lift is a convex combination of the per-stratum lifts and lies
between their minimum and maximum over the surviving strata table. -/
theorem C10_pooled_lift_convex_combination {K : Type} [DecidableEq K]
    (sq ppf : ℚ → ℚ) (d : List (Obs K)) (control treatment : String)
    (min_n : ℕ) (weighting : String) (alpha : ℚ)
    (res : StratifiedLiftResult K) (hmin : 1 ≤ min_n)
    (hres : stratified_lift sq ppf d control treatment min_n weighting alpha
      = .ok res) :
    (∀ p ∈ res.strata_table, 0 < p.2) ∧
    (res.strata_table.map
        (fun p => p.2 / (res.strata_table.map (fun p' => p'.2)).sum)).sum = 1 ∧
    (∃ p ∈ res.strata_table, res.pooled_lift_pp ≤ p.1.lift) ∧
    (∃ p ∈ res.strata_table, p.1.lift ≤ res.pooled_lift_pp) := by
  obtain ⟨hbin, hemp, w, hw, htab, hpool⟩ :=
    stratified_ok_extract sq ppf d control treatment min_n weighting alpha
      res hres
  obtain ⟨f, hwf, hfpos⟩ : ∃ f, w = (strataRows d control treatment min_n).map f
      ∧ ∀ r ∈ strataRows d control treatment min_n, 0 < f r := by
    rcases weightsFor_shape weighting _ w hw with ⟨_, rfl⟩ | ⟨_, rfl⟩
    · refine ⟨fun r => (r.n_total : ℚ), rfl, ?_⟩
      intro r hr
      obtain ⟨k, _, _, hc, _, hnc, _, htot, _⟩ :=
        strataRows_row_mem d control treatment min_n r hr
      have h1 : 1 ≤ r.n_c := hnc ▸ le_trans hmin hc
      have h2 : 0 < r.n_total := by omega
      show (0 : ℚ) < (r.n_total : ℚ)
      exact_mod_cast h2
    · refine ⟨fun r => 1 / (r.var + 1 / 10 ^ 12), rfl, ?_⟩
      intro r hr
      have hv := strataRows_var_nonneg d control treatment min_n r hbin hr
      positivity
  subst hwf
  set tab := strataRows d control treatment min_n with htabdef
  have hwpos : 0 < (tab.map f).sum :=
    List.sum_pos _ (by
      intro x hx
      obtain ⟨r, hr, rfl⟩ := List.mem_map.mp hx
      exact hfpos r hr) (by simpa using hemp)
  set W := (tab.map f).sum with hWdef
  have hWne : W ≠ 0 := ne_of_gt hwpos
  have hlen : tab.length = (tab.map f).length := by simp
  have hperm : res.strata_table.Perm (tab.zip (tab.map f)) :=
    htab ▸ sortRowsDesc_perm _
  have hpool' : res.pooled_lift_pp = (tab.map (fun r => f r / W * r.lift)).sum := by
    rw [hpool, List.map_map, zipWith_map_self]
    congr 1
  have hsnd : (res.strata_table.map (fun p' => p'.2)).sum = W := by
    rw [(hperm.map Prod.snd).sum_eq, List.map_snd_zip _ _ (le_of_eq hlen.symm)]
  have hfsum : ((tab.map f).map (fun x => x / W)).sum = 1 := by
    rw [sum_map_div, div_self hWne]
  refine ⟨?_, ?_, ?_, ?_⟩
  · intro p hp
    obtain ⟨r, hr, rfl⟩ := zip_map_mem f tab p (hperm.subset hp)
    exact hfpos r hr
  · have hmap : res.strata_table.map
        (fun p => p.2 / (res.strata_table.map (fun p' => p'.2)).sum)
        = (res.strata_table.map (fun p' => p'.2)).map (fun x => x / W) := by
      rw [hsnd, List.map_map]
      congr 1
    rw [hmap, sum_map_div, hsnd, div_self hWne]
  · obtain ⟨p, hpL, hle⟩ := wsum_le_max
      (tab.map (fun r => (f r / W, r.lift)))
      (by
        intro q hq
        obtain ⟨r, hr, rfl⟩ := List.mem_map.mp hq
        exact (div_nonneg (hfpos r hr).le hwpos.le))
      (by simpa using hemp)
    obtain ⟨r, hr, rfl⟩ := List.mem_map.mp hpL
    refine ⟨(r, f r), hperm.mem_iff.mpr (mem_zip_map f tab r hr), ?_⟩
    have hfst : ((tab.map (fun r => (f r / W, r.lift))).map Prod.fst).sum = 1 := by
      rw [List.map_map]
      have : (Prod.fst ∘ fun r : StratumRow K => (f r / W, r.lift))
          = fun r => f r / W := rfl
      rw [this, ← hfsum, List.map_map]
      congr 1
    have hmm : ((tab.map (fun r => (f r / W, r.lift))).map
        (fun q => q.1 * q.2)).sum = res.pooled_lift_pp := by
      rw [List.map_map, hpool']
      congr 1
    rw [hfst, hmm, one_mul] at hle
    exact hle
  · obtain ⟨p, hpL, hle⟩ := wsum_ge_min
      (tab.map (fun r => (f r / W, r.lift)))
      (by
        intro q hq
        obtain ⟨r, hr, rfl⟩ := List.mem_map.mp hq
        exact (div_nonneg (hfpos r hr).le hwpos.le))
      (by simpa using hemp)
    obtain ⟨r, hr, rfl⟩ := List.mem_map.mp hpL
    refine ⟨(r, f r), hperm.mem_iff.mpr (mem_zip_map f tab r hr), ?_⟩
    have hfst : ((tab.map (fun r => (f r / W, r.lift))).map Prod.fst).sum = 1 := by
      rw [List.map_map]
      have : (Prod.fst ∘ fun r : StratumRow K => (f r / W, r.lift))
          = fun r => f r / W := rfl
      rw [this, ← hfsum, List.map_map]
      congr 1
    have hmm : ((tab.map (fun r => (f r / W, r.lift))).map
        (fun q => q.1 * q.2)).sum = res.pooled_lift_pp := by
      rw [List.map_map, hpool']
      congr 1
    rw [hfst, hmm, one_mul] at hle
    exact hle

theorem C10_pooled_lift_convex_combination_witness :
    ∃ res, stratified_lift (fun q : ℚ => q) (fun q : ℚ => q)
        [⟨0, "psa", 0⟩, ⟨0, "psa", 1⟩, ⟨0, "ad", 1⟩, ⟨0, "ad", 1⟩,
         ⟨1, "psa", 0⟩, ⟨1, "ad", 0⟩, ⟨(1 : ℕ), "ad", 1⟩]
        "psa" "ad" 1 "n_total" (1 / 20) = .ok res ∧
      (∀ p ∈ res.strata_table, 0 < p.2) ∧
      (res.strata_table.map
          (fun p => p.2 / (res.strata_table.map (fun p' => p'.2)).sum)).sum = 1 ∧
      (∃ p ∈ res.strata_table, res.pooled_lift_pp ≤ p.1.lift) ∧
      (∃ p ∈ res.strata_table, p.1.lift ≤ res.pooled_lift_pp) := by
  rcases h : stratified_lift (fun q : ℚ => q) (fun q : ℚ => q)
      [⟨0, "psa", 0⟩, ⟨0, "psa", 1⟩, ⟨0, "ad", 1⟩, ⟨0, "ad", 1⟩,
       ⟨1, "psa", 0⟩, ⟨1, "ad", 0⟩, ⟨(1 : ℕ), "ad", 1⟩]
      "psa" "ad" 1 "n_total" (1 / 20) with e | res
  · have hok : (stratified_lift (fun q : ℚ => q) (fun q : ℚ => q)
        [⟨0, "psa", 0⟩, ⟨0, "psa", 1⟩, ⟨0, "ad", 1⟩, ⟨0, "ad", 1⟩,
         ⟨1, "psa", 0⟩, ⟨1, "ad", 0⟩, ⟨(1 : ℕ), "ad", 1⟩]
        "psa" "ad" 1 "n_total" (1 / 20)).isOk = true := by decide
    rw [h] at hok
    simp [Except.isOk, Except.toBool] at hok
  · exact ⟨res, rfl, C10_pooled_lift_convex_combination (fun q : ℚ => q)
      (fun q : ℚ => q) _ "psa" "ad" 1 "n_total" (1 / 20) res le_rfl h⟩

theorem reqTotalAt_ok {α : Type} [LinearOrderedField α] [FloorRing α]
    (sq ppf : α → α) (b alpha power : α) (two_sided : Bool) (share x : α)
    (hb0 : 0 ≤ b) (hb1 : b ≤ 1) (ha0 : 0 < alpha) (ha1 : alpha < 1)
    (hp0 : 0 < power) (hp1 : power < 1) (hs0 : 0 < share) (hs1 : share < 1)
    (hx : 0 < x) (hx2 : b + x / 100 < 1) :
    reqTotalAt sq ppf b alpha power two_sided share x
      = .ok (⌈nControlCont sq ppf b x alpha power two_sided share⌉
           + ⌈nControlCont sq ppf b x alpha power two_sided share
               * (share / (1 - share))⌉) := by
  have hx100 : (0 : α) < x / 100 := by positivity
  unfold reqTotalAt
  rw [required_ok sq ppf b x alpha power two_sided share hb0 hb1 hx ha0 ha1
    hp0 hp1 hs0 hs1 (by linarith) hx2]
  rfl

theorem mde_unfold {α : Type} [LinearOrderedField α] [FloorRing α]
    (sq ppf : α → α) (b : α) (nc nt : ℤ) (alpha power : α) (two_sided : Bool)
    (hb0 : 0 ≤ b) (hb1 : b ≤ 1) (ha0 : 0 < alpha) (ha1 : alpha < 1)
    (hp0 : 0 < power) (hp1 : power < 1) (hnc : 0 < nc) (hnt : 0 < nt) :
    mde_pp_for_n_two_proportion sq ppf b nc nt alpha power two_sided
      = (match mdeBracketLoop
          (reqTotalAt sq ppf b alpha power two_sided
            ((nt : α) / ((nc : α) + (nt : α))))
          (nc + nt) ((1 - b) * 100 - 1 / 1000000) 30
          (min ((1 - b) * 100 - 1 / 1000000) 50) with
        | .error e => .error e
        | .ok h => mdeBisectLoop
            (reqTotalAt sq ppf b alpha power two_sided
              ((nt : α) / ((nc : α) + (nt : α))))
            (nc + nt) 60 (1 / 1000000) h) := by
  simp only [mde_pp_for_n_two_proportion]
  rw [if_neg (by push_neg; exact ⟨hb0, hb1⟩)]
  rw [if_neg (by push_neg; exact ⟨ha0.le, ha1.le⟩)]
  rw [if_neg (by push_neg; exact ⟨hp0.le, hp1.le⟩)]
  rw [if_neg (by push_neg; exact ⟨ha0, ha1⟩)]
  rw [if_neg (by push_neg; exact ⟨hp0, hp1⟩)]
  rw [if_neg (by push_neg; exact ⟨hnc, hnt⟩)]

theorem mdeBracketLoop_ok_inv {α : Type} [LinearOrderedField α]
    (req : α → Except AbError ℤ) (target : ℤ) (cap : α) :
    ∀ (f : ℕ) (h hr : α), mdeBracketLoop req target cap f h = .ok hr →
      0 < h → h ≤ cap →
      0 < hr ∧ hr ≤ cap ∧ h ≤ hr ∧ ∃ n, req hr = .ok n ∧ n ≤ target := by
  intro f
  induction f with
  | zero => intro h hr heq; simp [mdeBracketLoop] at heq
  | succ f ih =>
    intro h hr heq hh0 hhc
    rw [mdeBracketLoop] at heq
    cases hreq : req h with
    | error e => rw [hreq] at heq; simp at heq
    | ok n =>
      rw [hreq] at heq
      dsimp only at heq
      by_cases hn : n ≤ target
      · rw [if_pos hn] at heq
        have := Except.ok.inj heq
        subst this
        exact ⟨hh0, hhc, le_rfl, n, hreq, hn⟩
      · rw [if_neg hn] at heq
        have hg0 : 0 < min (h * (3 / 2)) cap :=
          lt_min (by nlinarith) (lt_of_lt_of_le hh0 hhc)
        have hgc : min (h * (3 / 2)) cap ≤ cap := min_le_right _ _
        obtain ⟨h1, h2, h3, hex⟩ := ih _ hr heq hg0 hgc
        exact ⟨h1, h2, le_trans (le_min (by nlinarith) hhc) h3, hex⟩

theorem mdeBracketLoop_error_iff {α : Type} [LinearOrderedField α]
    (req : α → Except AbError ℤ) (target : ℤ) (cap : α) :
    ∀ (f : ℕ) (h : α), 0 < h → h ≤ cap →
      (∀ x, 0 < x → x ≤ cap → ∃ n, req x = .ok n) →
      (mdeBracketLoop req target cap f h = .error .couldNotBracket ↔
        ∀ i < f, ∃ n, req ((fun x => min (x * (3 / 2)) cap)^[i] h) = .ok n
          ∧ target < n) := by
  intro f
  induction f with
  | zero =>
    intro h _ _ _
    simp [mdeBracketLoop]
  | succ f ih =>
    intro h hh0 hhc hok
    obtain ⟨n, hn⟩ := hok h hh0 hhc
    by_cases hle : n ≤ target
    · have heq : mdeBracketLoop req target cap (f + 1) h = .ok h := by
        rw [mdeBracketLoop, hn]
        show (if n ≤ target then Except.ok h
          else mdeBracketLoop req target cap f (min (h * (3 / 2)) cap))
          = Except.ok h
        rw [if_pos hle]
      refine iff_of_false (by rw [heq]; simp) ?_
      intro hR
      obtain ⟨n', hn', hlt⟩ := hR 0 (Nat.succ_pos f)
      rw [Function.iterate_zero_apply, hn] at hn'
      have := Except.ok.inj hn'
      omega
    · have heq : mdeBracketLoop req target cap (f + 1) h
          = mdeBracketLoop req target cap f (min (h * (3 / 2)) cap) := by
        rw [mdeBracketLoop, hn]
        show (if n ≤ target then Except.ok h
          else mdeBracketLoop req target cap f (min (h * (3 / 2)) cap))
          = mdeBracketLoop req target cap f (min (h * (3 / 2)) cap)
        rw [if_neg hle]
      have hg0 : 0 < min (h * (3 / 2)) cap :=
        lt_min (by nlinarith) (lt_of_lt_of_le hh0 hhc)
      have hgc : min (h * (3 / 2)) cap ≤ cap := min_le_right _ _
      rw [heq, ih _ hg0 hgc hok]
      constructor
      · intro hR
        intro i hi
        cases i with
        | zero =>
          rw [Function.iterate_zero_apply]
          exact ⟨n, hn, lt_of_not_le hle⟩
        | succ i =>
          rw [Function.iterate_succ_apply]
          exact hR i (by omega)
      · intro hR i hi
        have := hR (i + 1) (by omega)
        rwa [Function.iterate_succ_apply] at this

theorem mdeBisectLoop_isOk {α : Type} [LinearOrderedField α]
    (req : α → Except AbError ℤ) (target : ℤ) :
    ∀ (f : ℕ) (low high : α), 0 < low → low ≤ high →
      (∀ x, 0 < x → x ≤ high → ∃ n, req x = .ok n) →
      ∃ m, mdeBisectLoop req target f low high = .ok m := by
  intro f
  induction f with
  | zero => intro low high _ _ _; exact ⟨high, rfl⟩
  | succ f ih =>
    intro low high hl0 hlh hok
    have hm0 : 0 < (low + high) / 2 := by linarith
    have hmh : (low + high) / 2 ≤ high := by linarith
    obtain ⟨n, hn⟩ := hok ((low + high) / 2) hm0 hmh
    rw [mdeBisectLoop]
    rw [hn]
    show ∃ m, (if target < n then mdeBisectLoop req target f ((low + high) / 2) high
      else mdeBisectLoop req target f low ((low + high) / 2)) = Except.ok m
    by_cases hc : target < n
    · rw [if_pos hc]
      exact ih _ high hm0 hmh hok
    · rw [if_neg hc]
      exact ih low _ hl0 (by linarith)
        (fun x hx hxm => hok x hx (le_trans hxm hmh))

/-- Claim C8: in the MDE search, whenever the capped upper bracket still
requires more total samples than the given `n_control + n_treatment`, the
bracket is grown by the factor 1.5 reclamped to the theoretical headroom cap
`(1 - baseline_rate) * 100 - 1e-6`, for at most 30 checks; the search fails
with the "could not bracket" error (`RuntimeError` in the source, the spec's
`ComputationError` kind) exactly when every one of the 30 probed brackets
still requires more than the given total — it never loops and never returns
a value in that case. -/
theorem C8_mde_bracket_budget_and_error {α : Type} [LinearOrderedField α]
    [FloorRing α] (sq ppf : α → α) (b : α) (nc nt : ℤ) (alpha power : α)
    (two_sided : Bool)
    (hb0 : 0 ≤ b) (hb1 : b ≤ 1) (ha0 : 0 < alpha) (ha1 : alpha < 1)
    (hp0 : 0 < power) (hp1 : power < 1) (hnc : 0 < nc) (hnt : 0 < nt)
    (hcap : 0 < (1 - b) * 100 - 1 / 1000000)
    (hlc : (1 : α) / 1000000 ≤ (1 - b) * 100 - 1 / 1000000) :
    mde_pp_for_n_two_proportion sq ppf b nc nt alpha power two_sided
        = .error .couldNotBracket ↔
      ∀ i < 30, ∃ n, reqTotalAt sq ppf b alpha power two_sided
          ((nt : α) / ((nc : α) + (nt : α)))
          ((fun x => min (x * (3 / 2)) ((1 - b) * 100 - 1 / 1000000))^[i]
            (min ((1 - b) * 100 - 1 / 1000000) 50))
        = .ok n ∧ nc + nt < n := by
  have hntc : (0 : α) < (nt : α) := by exact_mod_cast hnt
  have hncc : (0 : α) < (nc : α) := by exact_mod_cast hnc
  have hsum : (0 : α) < (nc : α) + (nt : α) := by linarith
  have hshare0 : 0 < (nt : α) / ((nc : α) + (nt : α)) := div_pos hntc hsum
  have hshare1 : (nt : α) / ((nc : α) + (nt : α)) < 1 :=
    (div_lt_one hsum).mpr (by linarith)
  have hok : ∀ x, 0 < x → x ≤ (1 - b) * 100 - 1 / 1000000 →
      ∃ n, reqTotalAt sq ppf b alpha power two_sided
        ((nt : α) / ((nc : α) + (nt : α))) x = .ok n := by
    intro x hx hxc
    have hx2 : b + x / 100 < 1 := by
      have hdiv : x / 100 ≤ ((1 - b) * 100 - 1 / 1000000) / 100 :=
        (div_le_div_right (by norm_num : (0:α) < 100)).mpr hxc
      have : ((1 - b) * 100 - 1 / 1000000) / 100 = 1 - b - 1 / 100000000 := by
        ring
      rw [this] at hdiv
      linarith
    exact ⟨_, reqTotalAt_ok sq ppf b alpha power two_sided _ x hb0 hb1 ha0 ha1
      hp0 hp1 hshare0 hshare1 hx hx2⟩
  have h00 : 0 < min ((1 - b) * 100 - 1 / 1000000) 50 :=
    lt_min hcap (by norm_num)
  have h0c : min ((1 - b) * 100 - 1 / 1000000) 50
      ≤ (1 - b) * 100 - 1 / 1000000 := min_le_left _ _
  rw [mde_unfold sq ppf b nc nt alpha power two_sided hb0 hb1 ha0 ha1 hp0 hp1
    hnc hnt]
  have hiff := mdeBracketLoop_error_iff
    (reqTotalAt sq ppf b alpha power two_sided
      ((nt : α) / ((nc : α) + (nt : α)))) (nc + nt)
    ((1 - b) * 100 - 1 / 1000000) 30
    (min ((1 - b) * 100 - 1 / 1000000) 50) h00 h0c hok
  cases hB : mdeBracketLoop
      (reqTotalAt sq ppf b alpha power two_sided
        ((nt : α) / ((nc : α) + (nt : α))))
      (nc + nt) ((1 - b) * 100 - 1 / 1000000) 30
      (min ((1 - b) * 100 - 1 / 1000000) 50) with
  | error e =>
    rw [hB] at hiff
    exact hiff
  | ok h =>
    rw [hB] at hiff
    obtain ⟨hh0, hhc, hge, n, hreqh, hnle⟩ :=
      mdeBracketLoop_ok_inv _ (nc + nt) _ 30 _ h hB h00 h0c
    have hlow : (1 : α) / 1000000 ≤ h := le_trans (le_min hlc (by norm_num)) hge
    obtain ⟨m, hm⟩ := mdeBisectLoop_isOk
      (reqTotalAt sq ppf b alpha power two_sided
        ((nt : α) / ((nc : α) + (nt : α)))) (nc + nt) 60 (1 / 1000000) h
      (by norm_num) hlow
      (fun x hx hxh => hok x hx (le_trans hxh hhc))
    show mdeBisectLoop (reqTotalAt sq ppf b alpha power two_sided
        ((nt : α) / ((nc : α) + (nt : α)))) (nc + nt) 60 (1 / 1000000) h
      = .error .couldNotBracket ↔ _
    rw [hm]
    refine iff_of_false (by simp) ?_
    intro hR
    have := hiff.mpr hR
    simp at this

theorem C8_mde_bracket_budget_and_error_witness :
    mde_pp_for_n_two_proportion sqrtA ppfQ (1 / 2 : ℚ) 1 1 (1 / 20) (4 / 5)
      true = .error .couldNotBracket := by
  refine (C8_mde_bracket_budget_and_error sqrtA ppfQ (1 / 2 : ℚ) 1 1 (1 / 20)
    (4 / 5) true (by norm_num) (by norm_num) (by norm_num) (by norm_num)
    (by norm_num) (by norm_num) (by norm_num) (by norm_num) (by norm_num)
    (by norm_num)).mpr ?_
  have hmin : min ((1 - (1 / 2 : ℚ)) * 100 - 1 / 1000000) 50
      = (1 - (1 / 2 : ℚ)) * 100 - 1 / 1000000 := by norm_num
  have hfix : ∀ i : ℕ,
      (fun x : ℚ => min (x * (3 / 2)) ((1 - (1 / 2 : ℚ)) * 100 - 1 / 1000000))^[i]
        ((1 - (1 / 2 : ℚ)) * 100 - 1 / 1000000)
      = (1 - (1 / 2 : ℚ)) * 100 - 1 / 1000000 := by
    intro i
    refine Function.iterate_fixed ?_ i
    show min (((1 - (1 / 2 : ℚ)) * 100 - 1 / 1000000) * (3 / 2))
      ((1 - (1 / 2 : ℚ)) * 100 - 1 / 1000000)
      = (1 - (1 / 2 : ℚ)) * 100 - 1 / 1000000
    rw [min_eq_right (by norm_num)]
  intro i _
  rw [hmin, hfix i]
  exact ⟨22, by decide, by decide⟩

theorem mdeBisectLoop_spec {α : Type} [LinearOrderedField α]
    (req : α → Except AbError ℤ) (target : ℤ) :
    ∀ (f : ℕ) (low high : α), 0 < low → low ≤ high →
      (∀ x, 0 < x → x ≤ high → ∃ n, req x = .ok n) →
      (∃ nl, req low = .ok nl ∧ target < nl) →
      (∃ nh, req high = .ok nh ∧ nh ≤ target) →
      ∃ m, mdeBisectLoop req target f low high = .ok m ∧
        (∃ nm, req m = .ok nm ∧ nm ≤ target) ∧
        ∃ l, low ≤ l ∧ l ≤ m ∧ m ≤ high ∧
          (∃ nl, req l = .ok nl ∧ target < nl) ∧
          m - l = (high - low) / 2 ^ f := by
  intro f
  induction f with
  | zero =>
    intro low high hl0 hlh hok hlow hhigh
    exact ⟨high, rfl, hhigh, low, le_rfl, hlh, le_rfl, hlow, by simp⟩
  | succ f ih =>
    intro low high hl0 hlh hok hlow hhigh
    have hm0 : 0 < (low + high) / 2 := by linarith
    have hmh : (low + high) / 2 ≤ high := by linarith
    have hlm : low ≤ (low + high) / 2 := by linarith
    obtain ⟨n, hn⟩ := hok _ hm0 hmh
    rw [mdeBisectLoop, hn]
    show ∃ m, (if target < n then mdeBisectLoop req target f ((low + high) / 2) high
      else mdeBisectLoop req target f low ((low + high) / 2)) = Except.ok m ∧ _
    by_cases hc : target < n
    · rw [if_pos hc]
      obtain ⟨m, hmeq, hfeas, l, hl1, hl2, hl3, hinf, hwidth⟩ :=
        ih ((low + high) / 2) high hm0 hmh hok ⟨n, hn, hc⟩ hhigh
      refine ⟨m, hmeq, hfeas, l, le_trans hlm hl1, hl2, hl3, hinf, ?_⟩
      rw [hwidth, pow_succ]
      have h2 : (2 : α) ^ f ≠ 0 := by positivity
      field_simp
      ring
    · rw [if_neg hc]
      obtain ⟨m, hmeq, hfeas, l, hl1, hl2, hl3, hinf, hwidth⟩ :=
        ih low ((low + high) / 2) hl0 hlm
          (fun x hx hxm => hok x hx (le_trans hxm hmh)) hlow ⟨n, hn, not_lt.mp hc⟩
      refine ⟨m, hmeq, hfeas, l, hl1, hl2, le_trans hl3 hmh, hinf, ?_⟩
      rw [hwidth, pow_succ]
      have h2 : (2 : α) ^ f ≠ 0 := by positivity
      field_simp
      ring

/-- Amended claim C2.  (1) General round-trip: for every valid input on which
the MDE search succeeds *and whose search floor `1e-6` is infeasible*
(required total at lift `1e-6` exceeds the given total — the regime the spec's
sentence describes), the returned MDE `m` is feasible (feeding it back through
forward sizing needs no more than `n_control + n_treatment`) and lies within
the bisection width `(1-b)*100 / 2^60` of an infeasible lift, so forward
sizing reproduces the given totals up to the bisection tolerance.  Without the
floor-infeasibility proviso the round-trip fails (see the counterexample).
(2) The concrete instance: `required_sample_size(0.0179, 0.77, 0.05, 0.80,
two-sided, 0.5) = (5633, 5633)`, both in `[5200, 6200]` with total at least
10000, and the MDE at `(5633, 5633)` is within `0.001` of `0.77` and
reproduces `(5633, 5633)` exactly. -/
theorem C2_mde_roundtrip_amended :
    (∀ (α : Type) [LinearOrderedField α] [FloorRing α] (sq ppf : α → α)
        (b : α) (nc nt : ℤ) (alpha power : α) (two_sided : Bool) (m : α),
      0 ≤ b → b ≤ 1 → 0 < alpha → alpha < 1 → 0 < power → power < 1 →
      0 < nc → 0 < nt →
      0 < (1 - b) * 100 - 1 / 1000000 →
      (1 : α) / 1000000 ≤ (1 - b) * 100 - 1 / 1000000 →
      (∀ n0, reqTotalAt sq ppf b alpha power two_sided
          ((nt : α) / ((nc : α) + (nt : α))) (1 / 1000000) = .ok n0 →
        nc + nt < n0) →
      mde_pp_for_n_two_proportion sq ppf b nc nt alpha power two_sided
        = .ok m →
      (∃ nm, reqTotalAt sq ppf b alpha power two_sided
          ((nt : α) / ((nc : α) + (nt : α))) m = .ok nm ∧ nm ≤ nc + nt) ∧
      (∃ l, (1 : α) / 1000000 ≤ l ∧ l ≤ m ∧
        (∃ nl, reqTotalAt sq ppf b alpha power two_sided
            ((nt : α) / ((nc : α) + (nt : α))) l = .ok nl ∧ nc + nt < nl) ∧
        m - l ≤ (1 - b) * 100 / 2 ^ 60)) ∧
    required_sample_size_two_proportion sqrtA ppfQ (179 / 10000) (77 / 100)
      (1 / 20) (4 / 5) true (1 / 2) = .ok (5633, 5633) ∧
    ((5200 : ℤ) ≤ 5633 ∧ (5633 : ℤ) ≤ 6200 ∧ (10000 : ℤ) ≤ 5633 + 5633) ∧
    mde_pp_for_n_two_proportion sqrtA ppfQ (179 / 10000) 5633 5633 (1 / 20)
      (4 / 5) true
      = .ok (177535297698913818063109 / 230584300921369395200000) ∧
    |(177535297698913818063109 / 230584300921369395200000 : ℚ) - 77 / 100|
      ≤ 1 / 1000 ∧
    required_sample_size_two_proportion sqrtA ppfQ (179 / 10000)
      (177535297698913818063109 / 230584300921369395200000) (1 / 20) (4 / 5)
      true (1 / 2) = .ok (5633, 5633) := by
  constructor
  · intro α instF instR sq ppf b nc nt alpha power two_sided m hb0 hb1 ha0 ha1
      hp0 hp1 hnc hnt hcap hlc hlowinf hm
    have hntc : (0 : α) < (nt : α) := by exact_mod_cast hnt
    have hncc : (0 : α) < (nc : α) := by exact_mod_cast hnc
    have hsum : (0 : α) < (nc : α) + (nt : α) := by linarith
    have hshare0 : 0 < (nt : α) / ((nc : α) + (nt : α)) := div_pos hntc hsum
    have hshare1 : (nt : α) / ((nc : α) + (nt : α)) < 1 :=
      (div_lt_one hsum).mpr (by linarith)
    have hok : ∀ x, 0 < x → x ≤ (1 - b) * 100 - 1 / 1000000 →
        ∃ n, reqTotalAt sq ppf b alpha power two_sided
          ((nt : α) / ((nc : α) + (nt : α))) x = .ok n := by
      intro x hx hxc
      have hdiv : x / 100 ≤ ((1 - b) * 100 - 1 / 1000000) / 100 :=
        (div_le_div_right (by norm_num : (0:α) < 100)).mpr hxc
      have heq2 : ((1 - b) * 100 - 1 / 1000000) / 100
          = 1 - b - 1 / 100000000 := by ring
      rw [heq2] at hdiv
      exact ⟨_, reqTotalAt_ok sq ppf b alpha power two_sided _ x hb0 hb1 ha0
        ha1 hp0 hp1 hshare0 hshare1 hx (by linarith)⟩
    have h00 : 0 < min ((1 - b) * 100 - 1 / 1000000) 50 :=
      lt_min hcap (by norm_num)
    have h0c : min ((1 - b) * 100 - 1 / 1000000) 50
        ≤ (1 - b) * 100 - 1 / 1000000 := min_le_left _ _
    rw [mde_unfold sq ppf b nc nt alpha power two_sided hb0 hb1 ha0 ha1 hp0
      hp1 hnc hnt] at hm
    cases hB : mdeBracketLoop
        (reqTotalAt sq ppf b alpha power two_sided
          ((nt : α) / ((nc : α) + (nt : α))))
        (nc + nt) ((1 - b) * 100 - 1 / 1000000) 30
        (min ((1 - b) * 100 - 1 / 1000000) 50) with
    | error e => rw [hB] at hm; simp at hm
    | ok h =>
      rw [hB] at hm
      have hm' : mdeBisectLoop
          (reqTotalAt sq ppf b alpha power two_sided
            ((nt : α) / ((nc : α) + (nt : α))))
          (nc + nt) 60 (1 / 1000000) h = .ok m := hm
      obtain ⟨hh0, hhc, hge, nB, hreqh, hnle⟩ :=
        mdeBracketLoop_ok_inv _ (nc + nt) _ 30 _ h hB h00 h0c
      have hlow : (1 : α) / 1000000 ≤ h :=
        le_trans (le_min hlc (by norm_num)) hge
      obtain ⟨n0, hn0⟩ := hok (1 / 1000000) (by norm_num)
        (le_trans hlow hhc)
      obtain ⟨m', hmeq, hfeas, l, hl1, hl2, hl3, hinf, hwidth⟩ :=
        mdeBisectLoop_spec
          (reqTotalAt sq ppf b alpha power two_sided
            ((nt : α) / ((nc : α) + (nt : α))))
          (nc + nt) 60 (1 / 1000000) h (by norm_num) hlow
          (fun x hx hxh => hok x hx (le_trans hxh hhc))
          ⟨n0, hn0, hlowinf n0 hn0⟩ ⟨nB, hreqh, hnle⟩
      rw [hm'] at hmeq
      have hmm := Except.ok.inj hmeq
      subst hmm
      refine ⟨hfeas, l, hl1, hl2, hinf, ?_⟩
      have hnum : h - 1 / 1000000 ≤ (1 - b) * 100 := by
        have := le_trans hhc (le_refl ((1 - b) * 100 - 1 / 1000000))
        linarith
      have hpow : (0 : α) < 2 ^ 60 := by positivity
      calc m - l = (h - 1 / 1000000) / 2 ^ 60 := hwidth
        _ ≤ (1 - b) * 100 / 2 ^ 60 :=
          (div_le_div_right hpow).mpr hnum
  · refine ⟨by decide, ⟨by decide, by decide, by decide⟩, by decide, by decide,
      by decide⟩

theorem C2_mde_roundtrip_amended_witness :
    (∃ nm, reqTotalAt sqrtA ppfQ (179 / 10000) (1 / 20) (4 / 5) true
        (((5633 : ℤ) : ℚ) / (((5633 : ℤ) : ℚ) + ((5633 : ℤ) : ℚ)))
        (177535297698913818063109 / 230584300921369395200000)
      = .ok nm ∧ nm ≤ 5633 + 5633) ∧
    (∃ l, (1 : ℚ) / 1000000 ≤ l ∧
      l ≤ 177535297698913818063109 / 230584300921369395200000 ∧
      (∃ nl, reqTotalAt sqrtA ppfQ (179 / 10000) (1 / 20) (4 / 5) true
          (((5633 : ℤ) : ℚ) / (((5633 : ℤ) : ℚ) + ((5633 : ℤ) : ℚ))) l
        = .ok nl ∧ 5633 + 5633 < nl) ∧
      177535297698913818063109 / 230584300921369395200000 - l
        ≤ (1 - 179 / 10000) * 100 / 2 ^ 60) := by
  have hfact : reqTotalAt sqrtA ppfQ (179 / 10000) (1 / 20) (4 / 5) true
      (((5633 : ℤ) : ℚ) / (((5633 : ℤ) : ℚ) + ((5633 : ℤ) : ℚ)))
      (1 / 1000000) = .ok 5519205021116828 := by decide
  exact C2_mde_roundtrip_amended.1 ℚ sqrtA ppfQ (179 / 10000) 5633 5633
    (1 / 20) (4 / 5) true
    (177535297698913818063109 / 230584300921369395200000)
    (by norm_num) (by norm_num) (by norm_num) (by norm_num) (by norm_num)
    (by norm_num) (by norm_num) (by norm_num) (by norm_num) (by norm_num)
    (fun n0 h => by
      rw [hfact] at h
      have := Except.ok.inj h
      omega)
    (by decide)

/-- Counterexample to claim C2 as stated: with `n_control = n_treatment =
5 * 10^15` (a valid input on which the MDE search succeeds), the search floor
`1e-6` is already feasible, the returned MDE collapses onto the floor, and
feeding it back through forward sizing yields about `2.76 * 10^15` per arm —
it does not reproduce `(5 * 10^15, 5 * 10^15)` up to any bisection
tolerance. -/
theorem C2_mde_roundtrip_counterexample :
    mde_pp_for_n_two_proportion sqrtA ppfQ (179 / 10000) (5 * 10 ^ 15)
      (5 * 10 ^ 15) (1 / 20) (4 / 5) true
      = .ok (46116860186273879 / 46116860184273879040000) ∧
    required_sample_size_two_proportion sqrtA ppfQ (179 / 10000)
      (46116860186273879 / 46116860184273879040000) (1 / 20) (4 / 5) true
      (1 / 2) = .ok (2759602510319057, 2759602510319057) ∧
    (2759602510319057 : ℤ) + 2759602510319057 < 6 * 10 ^ 15 := by
  refine ⟨by decide, by decide, by decide⟩

/-- Counterexample to claim C7 as stated.  Strictness fails for lift:
lifts 1.0 and 1.00001 (baseline 0.02, alpha 0.05, power 0.8, 50/50) both
require (3826, 3826) — the smaller lift does not give a strictly larger
total.  Monotonicity itself reverses for power below one half: with
alpha 0.9 (two-sided) and baseline 0.2, lift 5pp, raising power from 0.1 to
0.2 shrinks the requirement from (186, 186) to (72, 72), because the z value
of the power term is negative there. -/
theorem C7_sizing_monotonicity_counterexample :
    ((1 : ℚ) < 100001 / 100000) ∧
    required_sample_size_two_proportion sqrtA ppfQ (2 / 100) 1 (1 / 20)
      (4 / 5) true (1 / 2) = .ok (3826, 3826) ∧
    required_sample_size_two_proportion sqrtA ppfQ (2 / 100) (100001 / 100000)
      (1 / 20) (4 / 5) true (1 / 2) = .ok (3826, 3826) ∧
    ((1 : ℚ) / 10 < 1 / 5) ∧
    required_sample_size_two_proportion sqrtA ppfQ (2 / 10) 5 (9 / 10)
      (1 / 10) true (1 / 2) = .ok (186, 186) ∧
    required_sample_size_two_proportion sqrtA ppfQ (2 / 10) 5 (9 / 10)
      (1 / 5) true (1 / 2) = .ok (72, 72) ∧
    (72 : ℤ) + 72 < 186 + 186 := by
  refine ⟨by norm_num, by decide, by decide, by norm_num, by decide,
    by decide, by decide⟩

theorem quadRatioAnti (p c e δ1 δ2 : ℝ) (hp0 : 0 ≤ p) (hp1 : p ≤ 1)
    (hc0 : 0 ≤ c) (hc1 : c ≤ 1) (hδ1 : 0 < δ1) (h12 : δ1 ≤ δ2)
    (hv : p + δ2 ≤ 1) :
    (p * (1 - p) + c * (1 - 2 * p) * δ2 - e * δ2 ^ 2) / δ2 ^ 2
      ≤ (p * (1 - p) + c * (1 - 2 * p) * δ1 - e * δ1 ^ 2) / δ1 ^ 2 := by
  have hδ2 : 0 < δ2 := lt_of_lt_of_le hδ1 h12
  rw [div_le_div_iff (by positivity) (by positivity)]
  have key : 0 ≤ p * (1 - p) * (δ1 + δ2) + c * (1 - 2 * p) * δ1 * δ2 := by
    by_cases hhalf : p ≤ 1 / 2
    · have h1 : (0:ℝ) ≤ 1 - 2 * p := by linarith
      have h2 : (0:ℝ) ≤ 1 - p := by linarith
      nlinarith [mul_pos hδ1 hδ2, mul_nonneg (mul_nonneg hc0 h1)
        (mul_pos hδ1 hδ2).le, mul_nonneg (mul_nonneg hp0 h2) (by linarith :
        (0:ℝ) ≤ δ1 + δ2)]
    · push_neg at hhalf
      have h1 : δ1 ≤ 1 - p := by linarith
      have h2 : (0:ℝ) ≤ 1 - p := by linarith
      have hq : (0:ℝ) ≤ (2 * p - 1) * δ1 * δ2 :=
        mul_nonneg (mul_nonneg (by linarith) hδ1.le) hδ2.le
      have ha : c * (2 * p - 1) * δ1 * δ2 ≤ (2 * p - 1) * δ1 * δ2 := by
        nlinarith [mul_nonneg (by linarith : (0:ℝ) ≤ 1 - c) hq]
      have hbq : (2 * p - 1) * δ1 * δ2 ≤ (2 * p - 1) * (1 - p) * δ2 := by
        nlinarith [mul_nonneg (mul_nonneg (by linarith : (0:ℝ) ≤ 2 * p - 1)
          hδ2.le) (by linarith : (0:ℝ) ≤ 1 - p - δ1)]
      have hcq : (2 * p - 1) * (1 - p) * δ2 ≤ p * (1 - p) * δ2 := by
        nlinarith [mul_nonneg (mul_nonneg h2 h2) hδ2.le]
      have hdq : p * (1 - p) * δ2 ≤ p * (1 - p) * (δ1 + δ2) := by
        nlinarith [mul_nonneg (mul_nonneg hp0 h2) hδ1.le]
      nlinarith [ha, hbq, hcq, hdq]
  nlinarith [mul_nonneg key (by linarith : (0:ℝ) ≤ δ2 - δ1)]

theorem sqrtQuot_anti (x1 x2 δ1 δ2 : ℝ) (hx2 : 0 ≤ x2) (hδ1 : 0 < δ1)
    (hδ2 : 0 < δ2) (h : x2 / δ2 ^ 2 ≤ x1 / δ1 ^ 2) :
    Real.sqrt x2 / δ2 ≤ Real.sqrt x1 / δ1 := by
  have hx1 : 0 ≤ x1 := by
    have h1 : (0:ℝ) ≤ x1 / δ1 ^ 2 := le_trans (by positivity) h
    have h3 : x1 / δ1 ^ 2 * δ1 ^ 2 = x1 := by field_simp
    have h4 := mul_nonneg h1 (by positivity : (0:ℝ) ≤ δ1 ^ 2)
    linarith [h3 ▸ h4]
  have e2 : Real.sqrt x2 / δ2 = Real.sqrt (x2 / δ2 ^ 2) := by
    rw [Real.sqrt_div hx2, Real.sqrt_sq hδ2.le]
  have e1 : Real.sqrt x1 / δ1 = Real.sqrt (x1 / δ1 ^ 2) := by
    rw [Real.sqrt_div hx1, Real.sqrt_sq hδ1.le]
  rw [e1, e2]
  exact Real.sqrt_le_sqrt h

theorem nControlCont_anti_lift (ppf : ℝ → ℝ) (b alpha power : ℝ) (ts : Bool)
    (s l1 l2 : ℝ) (hb0 : 0 ≤ b) (hl1 : 0 < l1) (h12 : l1 ≤ l2)
    (hs0 : 0 < s) (hs1 : s < 1) (hp2 : b + l2 / 100 ≤ 1)
    (hza : 0 ≤ z_alphaM ppf alpha ts) (hzb : 0 ≤ z_betaM ppf power) :
    nControlCont Real.sqrt ppf b l2 alpha power ts s
      ≤ nControlCont Real.sqrt ppf b l1 alpha power ts s := by
  have hs1' : (0:ℝ) < 1 - s := by linarith
  have hr0 : 0 < s / (1 - s) := div_pos hs0 hs1'
  set r := s / (1 - s) with hrdef
  have h1r : (0:ℝ) < 1 + r := by linarith
  have hδ1 : 0 < l1 / 100 := div_pos hl1 (by norm_num)
  have hδ2 : 0 < l2 / 100 := div_pos (lt_of_lt_of_le hl1 h12) (by norm_num)
  have hδ12 : l1 / 100 ≤ l2 / 100 := by linarith
  have hb1 : b ≤ 1 := by linarith
  have hpbar : ∀ δ : ℝ, (b + r * (b + δ)) / (1 + r) = b + s * δ := by
    intro δ
    rw [hrdef]
    field_simp
    ring
  have hunfold : ∀ l : ℝ, nControlCont Real.sqrt ppf b l alpha power ts s
      = (z_alphaM ppf alpha ts
          * Real.sqrt ((b + s * (l / 100)) * (1 - (b + s * (l / 100)))
            * (1 + 1 / r))
        + z_betaM ppf power
          * Real.sqrt (b * (1 - b)
            + (b + l / 100) * (1 - (b + l / 100)) / r)) ^ 2 / (l / 100) ^ 2 := by
    intro l
    show (z_alphaM ppf alpha ts
        * Real.sqrt ((b + r * (b + l / 100)) / (1 + r)
          * (1 - (b + r * (b + l / 100)) / (1 + r)) * (1 + 1 / r))
      + z_betaM ppf power
        * Real.sqrt (b * (1 - b)
          + (b + l / 100) * (1 - (b + l / 100)) / r)) ^ 2 / (l / 100) ^ 2 = _
    rw [hpbar (l / 100)]
  rw [hunfold l1, hunfold l2]
  set za := z_alphaM ppf alpha ts with hzadef
  set zb := z_betaM ppf power with hzbdef
  set A1 := (b + s * (l1 / 100)) * (1 - (b + s * (l1 / 100))) * (1 + 1 / r)
    with hA1def
  set A2 := (b + s * (l2 / 100)) * (1 - (b + s * (l2 / 100))) * (1 + 1 / r)
    with hA2def
  set B1 := b * (1 - b) + (b + l1 / 100) * (1 - (b + l1 / 100)) / r with hB1def
  set B2 := b * (1 - b) + (b + l2 / 100) * (1 - (b + l2 / 100)) / r with hB2def
  have hrinv : (0:ℝ) ≤ 1 / r := le_of_lt (by positivity)
  have hrK : (0:ℝ) ≤ 1 + 1 / r := by linarith
  have hAq : A2 / (l2 / 100) ^ 2 ≤ A1 / (l1 / 100) ^ 2 := by
    have e1 : A1 / (l1 / 100) ^ 2 = (1 + 1 / r)
        * ((b * (1 - b) + s * (1 - 2 * b) * (l1 / 100)
          - s ^ 2 * (l1 / 100) ^ 2) / (l1 / 100) ^ 2) := by
      rw [hA1def]; ring
    have e2 : A2 / (l2 / 100) ^ 2 = (1 + 1 / r)
        * ((b * (1 - b) + s * (1 - 2 * b) * (l2 / 100)
          - s ^ 2 * (l2 / 100) ^ 2) / (l2 / 100) ^ 2) := by
      rw [hA2def]; ring
    rw [e1, e2]
    exact mul_le_mul_of_nonneg_left
      (quadRatioAnti b s (s ^ 2) (l1 / 100) (l2 / 100) hb0 hb1 hs0.le hs1.le
        hδ1 hδ12 hp2) hrK
  have hBq : B2 / (l2 / 100) ^ 2 ≤ B1 / (l1 / 100) ^ 2 := by
    have hbb : (0:ℝ) ≤ b * (1 - b) := mul_nonneg hb0 (by linarith)
    have hdiv1 : b * (1 - b) / (l2 / 100) ^ 2
        ≤ b * (1 - b) / (l1 / 100) ^ 2 := by
      have hpow : (l1 / 100) ^ 2 ≤ (l2 / 100) ^ 2 :=
        pow_le_pow_left hδ1.le hδ12 2
      rw [div_eq_mul_inv, div_eq_mul_inv]
      exact mul_le_mul_of_nonneg_left
        (inv_le_inv_of_le (pow_pos hδ1 2) hpow) hbb
    have e1 : B1 / (l1 / 100) ^ 2 = b * (1 - b) / (l1 / 100) ^ 2
        + (1 / r) * ((b * (1 - b) + 1 * (1 - 2 * b) * (l1 / 100)
          - 1 * (l1 / 100) ^ 2) / (l1 / 100) ^ 2) := by
      rw [hB1def]; ring
    have e2 : B2 / (l2 / 100) ^ 2 = b * (1 - b) / (l2 / 100) ^ 2
        + (1 / r) * ((b * (1 - b) + 1 * (1 - 2 * b) * (l2 / 100)
          - 1 * (l2 / 100) ^ 2) / (l2 / 100) ^ 2) := by
      rw [hB2def]; ring
    rw [e1, e2]
    exact add_le_add hdiv1
      (mul_le_mul_of_nonneg_left
        (quadRatioAnti b 1 1 (l1 / 100) (l2 / 100) hb0 hb1 zero_le_one le_rfl
          hδ1 hδ12 hp2) hrinv)
  have hA2nn : (0:ℝ) ≤ A2 := by
    have h1 : (0:ℝ) ≤ b + s * (l2 / 100) :=
      add_nonneg hb0 (mul_nonneg hs0.le hδ2.le)
    have h2 : b + s * (l2 / 100) ≤ 1 := by nlinarith
    rw [hA2def]
    exact mul_nonneg (mul_nonneg h1 (by linarith)) hrK
  have hB2nn : (0:ℝ) ≤ B2 := by
    have h1 : (0:ℝ) ≤ b * (1 - b) := mul_nonneg hb0 (by linarith)
    have h2 : (0:ℝ) ≤ (b + l2 / 100) * (1 - (b + l2 / 100)) :=
      mul_nonneg (add_nonneg hb0 hδ2.le) (by linarith)
    have h3 := div_nonneg h2 hr0.le
    rw [hB2def]
    linarith
  have hsA := sqrtQuot_anti A1 A2 (l1 / 100) (l2 / 100) hA2nn hδ1 hδ2 hAq
  have hsB := sqrtQuot_anti B1 B2 (l1 / 100) (l2 / 100) hB2nn hδ1 hδ2 hBq
  have t1 : za * Real.sqrt A2 / (l2 / 100) ≤ za * Real.sqrt A1 / (l1 / 100) := by
    rw [mul_div_assoc, mul_div_assoc]
    exact mul_le_mul_of_nonneg_left hsA hza
  have t2 : zb * Real.sqrt B2 / (l2 / 100) ≤ zb * Real.sqrt B1 / (l1 / 100) := by
    rw [mul_div_assoc, mul_div_assoc]
    exact mul_le_mul_of_nonneg_left hsB hzb
  have hSdiv : (za * Real.sqrt A2 + zb * Real.sqrt B2) / (l2 / 100)
      ≤ (za * Real.sqrt A1 + zb * Real.sqrt B1) / (l1 / 100) := by
    rw [add_div, add_div]
    exact add_le_add t1 t2
  have hS2nn : (0:ℝ) ≤ za * Real.sqrt A2 + zb * Real.sqrt B2 :=
    add_nonneg (mul_nonneg hza (Real.sqrt_nonneg _))
      (mul_nonneg hzb (Real.sqrt_nonneg _))
  rw [← div_pow, ← div_pow]
  exact pow_le_pow_left (div_nonneg hS2nn hδ2.le) hSdiv 2

/-- The continuous control-arm size is monotone in the z value of the desired
power (hence in `power` whenever the quantile function is monotone and the
lower z value is nonnegative): the z-beta term scales a nonnegative square
root. -/
theorem nControlCont_mono_power (ppf : ℝ → ℝ) (b l alpha power1 power2 : ℝ)
    (ts : Bool) (s : ℝ) (hl : 0 < l)
    (hza : 0 ≤ z_alphaM ppf alpha ts) (hzb1 : 0 ≤ z_betaM ppf power1)
    (h12 : z_betaM ppf power1 ≤ z_betaM ppf power2) :
    nControlCont Real.sqrt ppf b l alpha power1 ts s
      ≤ nControlCont Real.sqrt ppf b l alpha power2 ts s := by
  have hδ : (0:ℝ) < (l / 100) ^ 2 := by positivity
  show (z_alphaM ppf alpha ts
      * Real.sqrt ((b + s / (1 - s) * (b + l / 100)) / (1 + s / (1 - s))
        * (1 - (b + s / (1 - s) * (b + l / 100)) / (1 + s / (1 - s)))
        * (1 + 1 / (s / (1 - s))))
    + z_betaM ppf power1
      * Real.sqrt (b * (1 - b)
        + (b + l / 100) * (1 - (b + l / 100)) / (s / (1 - s)))) ^ 2
      / (l / 100) ^ 2
    ≤ (z_alphaM ppf alpha ts
      * Real.sqrt ((b + s / (1 - s) * (b + l / 100)) / (1 + s / (1 - s))
        * (1 - (b + s / (1 - s) * (b + l / 100)) / (1 + s / (1 - s)))
        * (1 + 1 / (s / (1 - s))))
    + z_betaM ppf power2
      * Real.sqrt (b * (1 - b)
        + (b + l / 100) * (1 - (b + l / 100)) / (s / (1 - s)))) ^ 2
      / (l / 100) ^ 2
  have hS1 : (0:ℝ) ≤ z_alphaM ppf alpha ts
      * Real.sqrt ((b + s / (1 - s) * (b + l / 100)) / (1 + s / (1 - s))
        * (1 - (b + s / (1 - s) * (b + l / 100)) / (1 + s / (1 - s)))
        * (1 + 1 / (s / (1 - s))))
    + z_betaM ppf power1
      * Real.sqrt (b * (1 - b)
        + (b + l / 100) * (1 - (b + l / 100)) / (s / (1 - s))) :=
    add_nonneg (mul_nonneg hza (Real.sqrt_nonneg _))
      (mul_nonneg hzb1 (Real.sqrt_nonneg _))
  have hS12 := add_le_add (le_refl (z_alphaM ppf alpha ts
      * Real.sqrt ((b + s / (1 - s) * (b + l / 100)) / (1 + s / (1 - s))
        * (1 - (b + s / (1 - s) * (b + l / 100)) / (1 + s / (1 - s)))
        * (1 + 1 / (s / (1 - s))))))
    (mul_le_mul_of_nonneg_right h12 (Real.sqrt_nonneg (b * (1 - b)
        + (b + l / 100) * (1 - (b + l / 100)) / (s / (1 - s)))))
  exact (div_le_div_right hδ).mpr (pow_le_pow_left hS1 hS12 2)

/-- C7: amended claim.  Over the reals, with any quantile model whose z values
are nonnegative at the stated alpha and powers (e.g. power ≥ 1/2 and two-sided
alpha ≤ 1, as in the source defaults), `required_sample_size_two_proportion`
is *weakly* antitone in the lift and weakly monotone in the power: a larger
lift never yields a strictly larger required total, and a larger power (with
a monotone quantile function and a nonnegative lower z value) never yields a
strictly smaller one.  The spec's strict version and its unconditional power
claim fail (see the counterexample). -/
theorem C7_sizing_monotonicity_amended
    (ppf : ℝ → ℝ) (b alpha power l1 l2 s : ℝ) (ts : Bool)
    (hb0 : 0 ≤ b) (hb1 : b ≤ 1) (hl1 : 0 < l1) (h12 : l1 ≤ l2)
    (ha0 : 0 < alpha) (ha1 : alpha < 1) (hp0 : 0 < power) (hp1 : power < 1)
    (hs0 : 0 < s) (hs1 : s < 1)
    (hr0 : 0 < b + l1 / 100) (hr1 : b + l2 / 100 < 1)
    (hza : 0 ≤ z_alphaM ppf alpha ts) (hzb : 0 ≤ z_betaM ppf power)
    (power1 power2 : ℝ)
    (hq10 : 0 < power1) (hq11 : power1 < 1)
    (hq20 : 0 < power2) (hq21 : power2 < 1)
    (hzb1 : 0 ≤ z_betaM ppf power1)
    (hzmono : z_betaM ppf power1 ≤ z_betaM ppf power2) :
    (∃ a1 b1 a2 b2 : ℤ,
      required_sample_size_two_proportion Real.sqrt ppf b l1 alpha power ts s
        = .ok (a1, b1) ∧
      required_sample_size_two_proportion Real.sqrt ppf b l2 alpha power ts s
        = .ok (a2, b2) ∧
      a2 + b2 ≤ a1 + b1) ∧
    (∃ c1 d1 c2 d2 : ℤ,
      required_sample_size_two_proportion Real.sqrt ppf b l1 alpha power1 ts s
        = .ok (c1, d1) ∧
      required_sample_size_two_proportion Real.sqrt ppf b l1 alpha power2 ts s
        = .ok (c2, d2) ∧
      c1 + d1 ≤ c2 + d2) := by
  have hl2 : 0 < l2 := lt_of_lt_of_le hl1 h12
  have hr02 : 0 < b + l2 / 100 := by linarith
  have hr11 : b + l1 / 100 < 1 := by linarith
  have hrnn : (0:ℝ) ≤ s / (1 - s) := le_of_lt (div_pos hs0 (by linarith))
  constructor
  · have e1 := required_ok Real.sqrt ppf b l1 alpha power ts s hb0 hb1 hl1
      ha0 ha1 hp0 hp1 hs0 hs1 hr0 hr11
    have e2 := required_ok Real.sqrt ppf b l2 alpha power ts s hb0 hb1 hl2
      ha0 ha1 hp0 hp1 hs0 hs1 hr02 hr1
    have hmono := nControlCont_anti_lift ppf b alpha power ts s l1 l2 hb0
      hl1 h12 hs0 hs1 hr1.le hza hzb
    exact ⟨_, _, _, _, e1, e2,
      add_le_add (Int.ceil_mono hmono)
        (Int.ceil_mono (mul_le_mul_of_nonneg_right hmono hrnn))⟩
  · have e3 := required_ok Real.sqrt ppf b l1 alpha power1 ts s hb0 hb1 hl1
      ha0 ha1 hq10 hq11 hs0 hs1 hr0 hr11
    have e4 := required_ok Real.sqrt ppf b l1 alpha power2 ts s hb0 hb1 hl1
      ha0 ha1 hq20 hq21 hs0 hs1 hr0 hr11
    have hmono2 := nControlCont_mono_power ppf b l1 alpha power1 power2 ts s
      hl1 hza hzb1 hzmono
    exact ⟨_, _, _, _, e3, e4,
      add_le_add (Int.ceil_mono hmono2)
        (Int.ceil_mono (mul_le_mul_of_nonneg_right hmono2 hrnn))⟩

/-- Witness for the amended C7 claim at concrete inputs (identity quantile
model, baseline 1%, lifts 1pp and 2pp, powers 1/2 and 3/5). -/
theorem C7_sizing_monotonicity_amended_witness :
    (∃ a1 b1 a2 b2 : ℤ,
      required_sample_size_two_proportion Real.sqrt (fun q => q) (1/100) 1
        (1/20) (4/5) true (1/2) = .ok (a1, b1) ∧
      required_sample_size_two_proportion Real.sqrt (fun q => q) (1/100) 2
        (1/20) (4/5) true (1/2) = .ok (a2, b2) ∧
      a2 + b2 ≤ a1 + b1) ∧
    (∃ c1 d1 c2 d2 : ℤ,
      required_sample_size_two_proportion Real.sqrt (fun q => q) (1/100) 1
        (1/20) (1/2) true (1/2) = .ok (c1, d1) ∧
      required_sample_size_two_proportion Real.sqrt (fun q => q) (1/100) 1
        (1/20) (3/5) true (1/2) = .ok (c2, d2) ∧
      c1 + d1 ≤ c2 + d2) :=
  C7_sizing_monotonicity_amended (fun q => q) (1/100) (1/20) (4/5) 1 2 (1/2)
    true (by norm_num) (by norm_num) (by norm_num) (by norm_num) (by norm_num)
    (by norm_num) (by norm_num) (by norm_num) (by norm_num) (by norm_num)
    (by norm_num) (by norm_num) (by norm_num [z_alphaM]) (by norm_num [z_betaM])
    (1/2) (3/5) (by norm_num) (by norm_num) (by norm_num) (by norm_num)
    (by norm_num [z_betaM]) (by norm_num [z_betaM])
